import Mathlib

/-!
# Aleth: difficulty check, bloom chunk identifiers, tree routes, transaction lookups

A shallow embedding of

* `checkCalculatedDifficulty` of `test/libethcore/difficulty.cpp`, the manual
  difficulty formula of both eras;
* `chunkId`, `queryExtras` and the transaction lookups of
  `libethereum/BlockChain.h`;
* `treeRoute`, whose body is not part of `BlockChain.h`, from its description.

The fixed-width type `u256` is represented by `Nat` (values below `2 ^ 256`, with
subtraction modulo `2 ^ 256`), the unbounded `bigint` by `Int`, and `unsigned` by `Nat`
reduced modulo `2 ^ 32`.
-/

namespace Aleth

/-! ## Difficulty check (`test/libethcore/difficulty.cpp`) -/

/-- Modelled from the spec: the type `BlockHeader` (`libethcore/BlockHeader.h` is not among
the sources), reduced to the three fields `checkCalculatedDifficulty` reads. All three are
`u256` values: `difficulty.cpp` hands `u256` values to `setTimestamp`, `setDifficulty` and
`setNumber` (lines 126-132, 165-171, 277-284), so the getters return `u256` and arithmetic
between their values is `u256` arithmetic, modulo `2 ^ 256`. -/
structure BlockHeader where
  /-- Field `difficulty()`, a `u256`. -/
  difficulty : Nat
  /-- Field `number()`, a `u256`. -/
  number : Nat
  /-- Field `timestamp()`, a `u256`. -/
  timestamp : Nat
  deriving DecidableEq, Repr

/-- Modelled from the spec: the type `ChainOperationParams`, reduced to the four values that
`checkCalculatedDifficulty` reads through `u256Param`. -/
structure ChainOperationParams where
  /-- Value `u256Param("frontierCompatibilityModeLimit")`. -/
  frontierCompatibilityModeLimit : Nat
  /-- Value `u256Param("minimumDifficulty")`. -/
  minimumDifficulty : Nat
  /-- Value `u256Param("durationLimit")`. -/
  durationLimit : Nat
  /-- Value `u256Param("difficultyBoundDivisor")`. -/
  difficultyBoundDivisor : Nat
  deriving DecidableEq, Repr

/-- Modelled from the spec: the enumeration `Network`; the six enumerators named in the
`switch` of `checkCalculatedDifficulty`, and `other` for every enumerator that falls to
its `default` label. -/
inductive Network where
  | Frontier
  | FrontierTest
  | HomesteadTest
  | Morden
  | Test
  | Olympic
  | other
  deriving DecidableEq, Repr

/-- The three locals `durationLimit`, `minimumDifficulty`, `difficultyBoundDivisor` that the
`switch (_n)` of `checkCalculatedDifficulty` sets. -/
structure EraParams where
  durationLimit : Nat
  minimumDifficulty : Nat
  difficultyBoundDivisor : Nat
  deriving DecidableEq, Repr

/-- The `switch (_n)` of `checkCalculatedDifficulty` (lines 71-93). -/
def eraParams (n : Network) (p : ChainOperationParams) : EraParams :=
  match n with
  | .Frontier | .FrontierTest | .HomesteadTest | .Morden | .Test =>
      { durationLimit := 13, minimumDifficulty := 131072, difficultyBoundDivisor := 2048 }
  | .Olympic =>
      { durationLimit := 8, minimumDifficulty := 131072, difficultyBoundDivisor := 2048 }
  | .other =>
      { durationLimit := p.durationLimit
        minimumDifficulty := p.minimumDifficulty
        difficultyBoundDivisor := p.difficultyBoundDivisor }

/-- The cast `(unsigned)c` of a `bigint`: the low 32 bits (those of the two's complement
for a negative value). -/
def toUnsigned (c : Int) : Nat := (c % 2 ^ 32).toNat

/-- The shift `u256(x) << s`: bits shifted past position 255 are lost, so a shift by 256 or
more leaves zero. -/
def u256Shl (x s : Nat) : Nat := if s < 256 then (x * 2 ^ s) % 2 ^ 256 else 0

/-- The difference `a - b` of two `u256` values (both below `2 ^ 256`): the subtraction is
unchecked and wraps modulo `2 ^ 256` when `b` exceeds `a`. -/
def u256Sub (a b : Nat) : Nat := if b ≤ a then a - b else a + 2 ^ 256 - b

/-- The term `u256(1) << (unsigned)c` with `c = (_bi.number() / 100000) - 2`
(lines 58, 61 and 100, 103): the subtraction is a `u256` subtraction, its value is widened
to the `bigint` `c`, and the cast keeps the low 32 bits. -/
def expTerm (number : Nat) : Nat :=
  let c : Int := ((u256Sub (number / 100000) 2 : Nat) : Int)
  u256Shl 1 (toUnsigned c)

/-- Lines 57 and 60: the multiplier `max<bigint>(b, -99)` of the Homestead branch, with
`b = 1 - (_bi.timestamp() - _parent.timestamp()) / 10` formed in `u256` arithmetic and only
then widened to a `bigint`. -/
def homesteadMultiplier (bi parent : BlockHeader) : Int :=
  let b : Int := ((u256Sub 1 (u256Sub bi.timestamp parent.timestamp / 10) : Nat) : Int)
  max b (-99)

/-- Line 99: the multiplier `b` of the Frontier branch, `+1` when the `u256` difference of
the timestamps is below `durationLimit` and `-1` otherwise. -/
def frontierMultiplier (bi parent : BlockHeader) (durationLimit : Nat) : Int :=
  if u256Sub bi.timestamp parent.timestamp < durationLimit then 1 else -1

/-- Lines 53-62: the final value of `block_diff` in the Homestead branch. -/
def homesteadBlockDiff (bi parent : BlockHeader) (p : ChainOperationParams) : Int :=
  let minimumDifficulty : Int := p.minimumDifficulty
  let block_diff : Int := parent.difficulty
  let a : Int := ((parent.difficulty / 2048 : Nat) : Int)
  let block_diff := block_diff + a * homesteadMultiplier bi parent
  let block_diff := block_diff + (expTerm bi.number : Int)
  max minimumDifficulty block_diff

/-- Lines 96-104: the final value of `block_diff` in the Frontier branch; `none` when the
`u256` division by `difficultyBoundDivisor` is a division by zero. -/
def frontierBlockDiff (bi parent : BlockHeader) (e : EraParams) : Option Int :=
  if e.difficultyBoundDivisor = 0 then none
  else
    let block_diff : Int := parent.difficulty
    let a : Int := ((parent.difficulty / e.difficultyBoundDivisor : Nat) : Int)
    let b : Int := frontierMultiplier bi parent e.durationLimit
    let block_diff := block_diff + a * b
    let block_diff := block_diff + (expTerm bi.number : Int)
    some (max (e.minimumDifficulty : Int) block_diff)

/-- The value `block_diff` that `checkCalculatedDifficulty` compares `_bi.difficulty()`
with: the Homestead branch when `_bi.number() > frontierDiff`, the Frontier branch with the
parameters of the network otherwise. -/
def block_diff (bi parent : BlockHeader) (n : Network) (p : ChainOperationParams) :
    Option Int :=
  if p.frontierCompatibilityModeLimit < bi.number then
    some (homesteadBlockDiff bi parent p)
  else
    frontierBlockDiff bi parent (eraParams n p)

/-- The check `difficulty == block_diff` of `checkCalculatedDifficulty`: `some true` when
the header's difficulty is the one the formula requires. -/
def checkCalculatedDifficulty (bi parent : BlockHeader) (n : Network)
    (p : ChainOperationParams) : Option Bool :=
  (block_diff bi parent n p).map (fun d => decide ((bi.difficulty : Int) = d))

/-- The minimum difficulty in force: the chain parameter in the Homestead branch, the local
set by the `switch` in the Frontier branch. -/
def minimumDifficultyOf (bi : BlockHeader) (n : Network) (p : ChainOperationParams) : Nat :=
  if p.frontierCompatibilityModeLimit < bi.number then p.minimumDifficulty
  else (eraParams n p).minimumDifficulty

/-- The exponential term as the specification words it: `2 ^ c` for `c ≥ 0`, omitted for
`c < 0`, with `c = number / 100000 - 2` an unbounded integer. -/
def specExpTerm (number : Nat) : Int :=
  let c : Int := ((number / 100000 : Nat) : Int) - 2
  if 0 ≤ c then ((2 ^ c.toNat : Nat) : Int) else 0

/-- The Homestead formula of §4.5 as the specification words it, in unbounded integers with
truncating division. -/
def specHomestead (bi parent : BlockHeader) (minimumDifficulty : Nat) : Int :=
  max (minimumDifficulty : Int)
    ((parent.difficulty : Int) + ((parent.difficulty : Int) / 2048) *
        max (1 - Int.tdiv ((bi.timestamp : Int) - (parent.timestamp : Int)) 10) (-99)
      + specExpTerm bi.number)

/-- The pre-Homestead formula of §4.5 as the specification words it. -/
def specFrontier (bi parent : BlockHeader) (e : EraParams) : Int :=
  let a : Int := (parent.difficulty : Int) / (e.difficultyBoundDivisor : Int)
  let b : Int :=
    if (bi.timestamp : Int) - (parent.timestamp : Int) < (e.durationLimit : Int) then 1 else -1
  max (e.minimumDifficulty : Int) ((parent.difficulty : Int) + a * b + specExpTerm bi.number)

/-! ## Hashes and bloom chunk identifiers (`libethereum/BlockChain.h`) -/

/-- The type `bytes`: a string of octets. -/
abbrev Bytes := List Nat

/-- Modelled from the spec: the type `h256` (`libdevcore/FixedHash.h` is not among the
sources), a 32-byte digest, held as its octets from the first (most significant) to the
last. -/
structure h256 where
  data : List Nat
  deriving DecidableEq, Repr

/-- Modelled from the spec: `toBigEndian`, which writes `v` into `n` octets, the most
significant first, dropping what does not fit. -/
def toBigEndian (v : Nat) : Nat → List Nat
  | 0 => []
  | n + 1 => toBigEndian (v / 256) n ++ [v % 256]

/-- Modelled from the spec: `fromBigEndian`, the integer a string of octets spells, the most
significant octet first. -/
def fromBigEndian (bs : List Nat) : Nat := bs.foldl (fun acc b => acc * 256 + b) 0

/-- Modelled from the spec: the constructor `h256(unsigned)`, the 256-bit big-endian
integer of that value. -/
def h256.ofUnsigned (u : Nat) : h256 := ⟨toBigEndian u 32⟩

/-- The 256-bit big-endian integer a hash holds. -/
def h256.toNat (h : h256) : Nat := fromBigEndian h.data

/-- The null hash `h256()`: thirty-two zero octets. -/
def h256.zero : h256 := ⟨List.replicate 32 0⟩

/-- Line 315: `chunkId(_level, _index) = h256(_index * 0xff + _level)`, the sum and the
product in `unsigned` arithmetic, that is modulo `2 ^ 32`. -/
def chunkId (_level _index : Nat) : h256 :=
  h256.ofUnsigned (((_index * 0xff) % 2 ^ 32 + _level) % 2 ^ 32)

/-! ## Tree routes (`BlockChain::treeRoute`, declared in `BlockChain.h`) -/

/-- Modelled from the spec: the record `BlockDetails` of §3 (`BlockDetails.h` is not among
the sources). -/
structure BlockDetails where
  number : Nat
  totalDifficulty : Nat
  parentHash : h256
  children : List h256
  deriving DecidableEq, Repr

/-- The block tree as `details()` shows it: the familial details of every known block,
`none` for an unknown hash. -/
abbrev BlockTree := h256 → Option BlockDetails

/-- A block tree given by a finite table of details. -/
def BlockTree.ofList (l : List (h256 × BlockDetails)) : BlockTree := fun h => l.lookup h

/-- Modelled from the spec: steps 1 and 2 of §4.8, the walk of `k` blocks upward along
`parentHash` from `h`, collecting the blocks passed in order; the result holds the
collected blocks and the block the walk stops at. `none` when a block passed is unknown. -/
def climb (t : BlockTree) : Nat → h256 → Option (List h256 × h256)
  | 0, h => some ([], h)
  | k + 1, h =>
    match t h with
    | none => none
    | some d =>
      match climb t k d.parentHash with
      | none => none
      | some r => some (h :: r.1, r.2)

/-- Modelled from the spec: step 3 of §4.8, the walk of both pointers in lockstep upward
until they coincide; the result holds the blocks passed on either side and the block where
the pointers meet. At most `fuel` steps are made (two blocks of number `n` meet within `n`
steps). -/
def lockstep (t : BlockTree) : Nat → h256 → h256 → Option (List h256 × List h256 × h256)
  | 0, f, g => if f = g then some ([], [], f) else none
  | fuel + 1, f, g =>
    if f = g then some ([], [], f)
    else
      match t f, t g with
      | some df, some dg =>
        match lockstep t fuel df.parentHash dg.parentHash with
        | none => none
        | some r => some (f :: r.1, g :: r.2.1, r.2.2)
      | _, _ => none

/-- Modelled from the spec: `BlockChain::treeRoute`, whose body (`BlockChain.cpp`) is not
among the sources, after §4.8: level the higher of the two blocks (steps 1 and 2), walk
both in lockstep to the common ancestor (step 3), emit `pre`, optionally the common
ancestor, optionally `post` (step 4); `commonIndex` is the length of the `pre`
contribution (step 5). `none` when one of the blocks, or a block passed, is unknown. -/
def treeRoute (t : BlockTree) (_from _to : h256) (_common _pre _post : Bool) :
    Option (List h256 × h256 × Nat) :=
  match t _from, t _to with
  | some df, some dt =>
    match climb t (df.number - dt.number) _from, climb t (dt.number - df.number) _to with
    | some up, some down =>
      match lockstep t (min df.number dt.number) up.2 down.2 with
      | none => none
      | some r =>
        let pre := if _pre then up.1 ++ r.1 else []
        let common := if _common then [r.2.2] else []
        let post := if _post then (down.1 ++ r.2.1).reverse else []
        some (pre ++ common ++ post, r.2.2, pre.length)
    | _, _ => none
  | _, _ => none

/-- The block `k` parent links above `h`; `none` when a block on the way is unknown. -/
def ancestor (t : BlockTree) : Nat → h256 → Option h256
  | 0, h => some h
  | k + 1, h =>
    match t h with
    | none => none
    | some d => ancestor t k d.parentHash

/-- The `k` blocks from `h` towards the root: `h`, its parent, and so on. -/
def pathUp (t : BlockTree) : Nat → h256 → List h256
  | 0, _ => []
  | k + 1, h =>
    h :: (match t h with
          | none => []
          | some d => pathUp t k d.parentHash)

/-- A well-formed block tree: the genesis block is known and has number 0, and the parent
of every other known block is known and has number one less. -/
def WellFormed (t : BlockTree) (genesis : h256) : Prop :=
  (∃ d, t genesis = some d ∧ d.number = 0) ∧
  ∀ h d, t h = some d → h ≠ genesis →
    ∃ dp, t d.parentHash = some dp ∧ dp.number + 1 = d.number

/-- Block `x` lies on the path from the known block `h` to the root. -/
def IsAncestor (t : BlockTree) (x h : h256) : Prop :=
  ∃ d k, t h = some d ∧ k ≤ d.number ∧ ancestor t k h = some x

/-- The list of step 4 of §4.8 for a route that leaves `a` by `i` blocks, reaches the
common ancestor `c` and arrives at `b` by `j` blocks: the down-walk from `a` to just above
`c`, optionally `c`, the up-walk from just above `c` to `b`. -/
def routeList (t : BlockTree) (a b c : h256) (i j : Nat) (_common _pre _post : Bool) :
    List h256 :=
  (if _pre then pathUp t i a else []) ++ (if _common then [c] else []) ++
    (if _post then (pathUp t j b).reverse else [])

/-- A decidable check of well-formedness for a tree given by a table. -/
def wellFormedTable (l : List (h256 × BlockDetails)) (genesis : h256) : Bool :=
  (match l.lookup genesis with
   | some d => decide (d.number = 0)
   | none => false) &&
  l.all (fun e =>
    decide (e.1 = genesis) ||
      (match l.lookup e.2.parentHash with
       | some dp => decide (dp.number + 1 = e.2.number)
       | none => false))

/-- The genesis block `g` of the documentation of `treeRoute`. -/
def docG : h256 := h256.ofUnsigned 10
/-- Block `1a` of the documentation of `treeRoute`. -/
def doc1a : h256 := h256.ofUnsigned 1
/-- Block `2a` of the documentation of `treeRoute`. -/
def doc2a : h256 := h256.ofUnsigned 2
/-- Block `3a` of the documentation of `treeRoute`. -/
def doc3a : h256 := h256.ofUnsigned 3
/-- Block `1b` of the documentation of `treeRoute`. -/
def doc1b : h256 := h256.ofUnsigned 11
/-- Block `2b` of the documentation of `treeRoute`. -/
def doc2b : h256 := h256.ofUnsigned 12

/-- The block tree of the documentation of `treeRoute`: `3a -> 2a -> 1a -> g` and
`2b -> 1b -> g`. -/
def docTable : List (h256 × BlockDetails) :=
  [ (docG, ⟨0, 1, h256.zero, [doc1a, doc1b]⟩),
    (doc1a, ⟨1, 2, docG, [doc2a]⟩),
    (doc2a, ⟨2, 3, doc1a, [doc3a]⟩),
    (doc3a, ⟨3, 4, doc2a, []⟩),
    (doc1b, ⟨1, 2, docG, [doc2b]⟩),
    (doc2b, ⟨2, 3, doc1b, []⟩) ]

/-- The tree of `docTable`. -/
def docTree : BlockTree := BlockTree.ofList docTable

/-! ## Extras lookups and transaction queries (`libethereum/BlockChain.h`) -/

/-- Modelled from the spec: the class `RLP` (`libdevcore/RLP.h` is not among the sources),
a decoded item that remembers the octets it was read from: the null item, a data item, or
a list of items. -/
inductive RLP where
  | null : RLP
  | data (raw : Bytes) : RLP
  | list (raw : Bytes) (items : List RLP) : RLP

/-- The octets of an item, `RLP::data()`; none for the null item. -/
def RLP.raw : RLP → Bytes
  | .null => []
  | .data raw => raw
  | .list raw _ => raw

/-- The items a range-`for` over an item visits: those of a list, none otherwise. -/
def RLP.items : RLP → List RLP
  | .list _ items => items
  | _ => []

/-- The subscript `RLP::operator[]`: the `i`-th item of a list, the null item when there is
none. -/
def RLP.get (r : RLP) (i : Nat) : RLP := r.items.getD i .null

/-- Modelled from the spec: the record `TransactionAddress` of §3. -/
structure TransactionAddress where
  blockHash : h256
  index : Nat
  deriving DecidableEq, Repr

/-- Modelled from the spec: the constant `NullTransactionAddress` (its declaration is not
among the sources), the record that names no block: the null hash and index 0. -/
def NullTransactionAddress : TransactionAddress := ⟨h256.zero, 0⟩

/-- Modelled from the spec: the conversion of a `TransactionAddress` to `bool`, true for a
record that names a block (a non-zero block hash). -/
def TransactionAddress.toBool (ta : TransactionAddress) : Bool :=
  decide (ta.blockHash ≠ h256.zero)

/-- Modelled from the spec: the record `BlockHash`, the hash stored for a block number. -/
structure BlockHash where
  value : h256
  deriving DecidableEq, Repr

/-- Modelled from the spec: the constant `NullBlockHash` (its declaration is not among the
sources), the record of the null hash. -/
def NullBlockHash : BlockHash := ⟨h256.zero⟩

/-- The kind tags of the extras table (the anonymous `enum` of lines 67-74). -/
def ExtraDetails : Nat := 0
/-- Kind tag of the block-hash-by-number records. -/
def ExtraBlockHash : Nat := 1
/-- Kind tag of the transaction-address records. -/
def ExtraTransactionAddress : Nat := 2
/-- Kind tag of the log-bloom records. -/
def ExtraLogBlooms : Nat := 3
/-- Kind tag of the receipt records. -/
def ExtraReceipts : Nat := 4
/-- Kind tag of the blocks-blooms chunks. -/
def ExtraBlocksBlooms : Nat := 5

/-- The type `CacheID = std::pair<h256, unsigned>`. -/
abbrev CacheID := h256 × Nat

/-- The subject of an extras key, what `toSlice` is given: a hash or a number. -/
inductive ExtrasKey where
  | hash (h : h256)
  | number (n : Nat)
  deriving DecidableEq, Repr

/-- The state of a `BlockChain` that the lookups read and write: the two stores, the
caches of the transaction addresses and block hashes, and the record of cache usage.
`m_blocksDB h` stands for the octets `block(h)` returns and `m_extrasDB k N` for
`m_extrasDB->lookup(toSlice(k, N))`, empty when nothing is stored. -/
structure BlockChain where
  m_genesisHash : h256
  m_blocksDB : h256 → Bytes
  m_extrasDB : ExtrasKey → Nat → Bytes
  m_transactionAddresses : h256 → Option TransactionAddress
  m_blockHashes : Nat → Option BlockHash
  m_cacheUsage : List (List CacheID)
  m_inUse : List CacheID

/-- The decoders the lookups rely on, none of them among the sources: the constructor
`RLP(bytes)` and the constructors of the extras records from the stored octets. -/
structure Codec where
  rlp : Bytes → RLP
  transactionAddress : Bytes → TransactionAddress
  blockHash : Bytes → BlockHash

/-- Modelled from the spec: `noteUsed(h256 const&, unsigned)`, whose body is not among the
sources: the identifier enters the newest generation of `m_cacheUsage` and the set
`m_inUse`. -/
def BlockChain.noteUsed (bc : BlockChain) (_h : h256) (_extra : Nat) : BlockChain :=
  let id : CacheID := (_h, _extra)
  { bc with
    m_cacheUsage :=
      match bc.m_cacheUsage with
      | [] => [[id]]
      | g :: rest => (if id ∈ g then g else id :: g) :: rest
    m_inUse := if id ∈ bc.m_inUse then bc.m_inUse else id :: bc.m_inUse }

/-- Line 387: `noteUsed(uint64_t const&, unsigned)` notes nothing. -/
def BlockChain.noteUsedNumber (bc : BlockChain) (_h : Nat) (_extra : Nat) : BlockChain := bc

/-- Lines 348-349: `_m.insert(std::make_pair(_h, v))` and the value then found under
`_h`; an entry already present is kept. -/
def cacheInsert {K T : Type} [DecidableEq K] (_m : K → Option T) (_h : K) (v : T) :
    (K → Option T) × T :=
  match _m _h with
  | some old => (_m, old)
  | none => (fun k => if k = _h then some v else _m k, v)

/-- Lines 330-350: `queryExtras<T, K, N>`. The cache `_m` is asked first; on a miss the
extras store is read, an empty value gives the null record `_n`, and any other value is
noted as used, decoded and inserted in the cache. The result holds the record returned,
the cache and the chain state (usage record) afterwards. -/
def queryExtras {K T : Type} [DecidableEq K] (N : Nat) (toKey : K → ExtrasKey)
    (note : BlockChain → K → Nat → BlockChain) (decode : Bytes → T)
    (bc : BlockChain) (_h : K) (_m : K → Option T) (_n : T) :
    T × (K → Option T) × BlockChain :=
  match _m _h with
  | some v => (v, _m, bc)
  | none =>
    let s := bc.m_extrasDB (toKey _h) N
    if s = [] then (_n, _m, bc)
    else
      let bc := note bc _h N
      let r := cacheInsert _m _h (decode s)
      (r.2, r.1, bc)

/-- The lookup `queryExtras<TransactionAddress, ExtraTransactionAddress>(_transactionHash,
m_transactionAddresses, x_transactionAddresses, NullTransactionAddress)` shared by lines
205-209, with the chain state after it. -/
def BlockChain.queryTransactionAddress (c : Codec) (bc : BlockChain) (_transactionHash : h256) :
    TransactionAddress × BlockChain :=
  let r := queryExtras ExtraTransactionAddress ExtrasKey.hash BlockChain.noteUsed
    c.transactionAddress bc _transactionHash bc.m_transactionAddresses NullTransactionAddress
  (r.1, { r.2.2 with m_transactionAddresses := r.2.1 })

/-- Modelled from the spec: `block(_hash)`, whose body is not among the sources: the
octets persisted under the hash. -/
def BlockChain.block (bc : BlockChain) (_hash : h256) : Bytes := bc.m_blocksDB _hash

/-- Line 212: `transaction(_blockHash, _i) = RLP(b)[1][_i].data().toBytes()`. -/
def BlockChain.transactionAt (c : Codec) (bc : BlockChain) (_blockHash : h256) (_i : Nat) :
    Bytes :=
  let b := bc.block _blockHash
  (((c.rlp b).get 1).get _i).raw

/-- Line 216: `transactions(_blockHash)`, the octets of every item of `RLP(b)[1]`. -/
def BlockChain.transactions (c : Codec) (bc : BlockChain) (_blockHash : h256) : List Bytes :=
  let b := bc.block _blockHash
  ((c.rlp b).get 1).items.map RLP.raw

/-- Line 205: `isKnownTransaction(_transactionHash)`. -/
def BlockChain.isKnownTransaction (c : Codec) (bc : BlockChain) (_transactionHash : h256) :
    Bool × BlockChain :=
  let r := bc.queryTransactionAddress c _transactionHash
  (r.1.toBool, r.2)

/-- Line 208: `transaction(_transactionHash)`. -/
def BlockChain.transaction (c : Codec) (bc : BlockChain) (_transactionHash : h256) :
    Bytes × BlockChain :=
  let r := bc.queryTransactionAddress c _transactionHash
  if !r.1.toBool then ([], r.2)
  else (r.2.transactionAt c r.1.blockHash r.1.index, r.2)

/-- Line 209: `transactionLocation(_transactionHash)`. -/
def BlockChain.transactionLocation (c : Codec) (bc : BlockChain) (_transactionHash : h256) :
    (h256 × Nat) × BlockChain :=
  let r := bc.queryTransactionAddress c _transactionHash
  if !r.1.toBool then ((h256.zero, 0), r.2)
  else ((r.1.blockHash, r.1.index), r.2)

/-- Line 178: `numberHash(_i)`: the genesis hash for number 0, else the hash of the
block-hash-by-number record. -/
def BlockChain.numberHash (c : Codec) (bc : BlockChain) (_i : Nat) : h256 × BlockChain :=
  if _i = 0 then (bc.m_genesisHash, bc)
  else
    let r := queryExtras ExtraBlockHash ExtrasKey.number BlockChain.noteUsedNumber
      c.blockHash bc _i bc.m_blockHashes NullBlockHash
    (r.1.value, { r.2.2 with m_blockHashes := r.2.1 })

/-- The transaction-address record of a hash: the cached one, else the one the extras
store holds, if any. -/
def BlockChain.transactionAddressRecord (c : Codec) (bc : BlockChain) (t : h256) :
    Option TransactionAddress :=
  match bc.m_transactionAddresses t with
  | some ta => some ta
  | none =>
    let s := bc.m_extrasDB (.hash t) ExtraTransactionAddress
    if s = [] then none else some (c.transactionAddress s)

/-- The divisor in force: 2048 in the Homestead branch, the local set by the `switch` in
the Frontier branch. -/
def divisorOf (bi : BlockHeader) (n : Network) (p : ChainOperationParams) : Nat :=
  if p.frontierCompatibilityModeLimit < bi.number then 2048
  else (eraParams n p).difficultyBoundDivisor

/-! ## Example inputs -/

/-- The chain parameters of the difficulty scenarios: Homestead from block 1150001 on. -/
def scenarioParams : ChainOperationParams := ⟨1150000, 131072, 13, 2048⟩

/-- Chain parameters under which every block is a Homestead block. -/
def homesteadParams : ChainOperationParams := ⟨0, 131072, 13, 2048⟩

/-- Chain parameters under which no block is a Homestead block. -/
def frontierParams : ChainOperationParams := ⟨2 ^ 64 - 1, 131072, 13, 2048⟩

/-- Chain parameters with a zero `difficultyBoundDivisor`. -/
def zeroDivisorParams : ChainOperationParams := ⟨2 ^ 64 - 1, 131072, 13, 0⟩

/-- A toy codec for the examples: a block of octets decodes to a header item and a list
holding one item for each octet; an address record `[b, i]` names block `b`, index `i`. -/
def exampleCodec : Codec where
  rlp := fun b => .list b [.data [], .list b (b.map (fun x => RLP.data [x]))]
  transactionAddress := fun s => ⟨h256.ofUnsigned (s.getD 0 0), s.getD 1 0⟩
  blockHash := fun s => ⟨h256.ofUnsigned (s.getD 0 0)⟩

/-- A chain for the examples: block 7 holds three transactions, and the extras store
locates transaction 99 in block 7 at index 1; the caches are empty. -/
def exampleChain : BlockChain where
  m_genesisHash := h256.ofUnsigned 0
  m_blocksDB := fun h => if h = h256.ofUnsigned 7 then [10, 20, 30] else []
  m_extrasDB := fun k N =>
    if k = .hash (h256.ofUnsigned 99) ∧ N = ExtraTransactionAddress then [7, 1] else []
  m_transactionAddresses := fun _ => none
  m_blockHashes := fun _ => none
  m_cacheUsage := []
  m_inUse := []

/-- A cache of transaction addresses for the examples: it holds transaction 3, located in
block 7 at index 2, and nothing else. -/
def exampleCache : h256 → Option TransactionAddress :=
  fun k => if k = h256.ofUnsigned 3 then some ⟨h256.ofUnsigned 7, 2⟩ else none

/-! ## Theorems: the difficulty check -/

theorem toUnsigned_of_lt (c : Int) (h0 : 0 ≤ c) (h1 : c < 256) : toUnsigned c = c.toNat := by
  unfold toUnsigned
  omega

theorem u256Sub_of_le (a b : Nat) (h : b ≤ a) : u256Sub a b = a - b := by
  unfold u256Sub
  rw [if_pos h]

/-- Below 2 the `u256` subtraction of 2 wraps, and the low 32 bits of the wrapped value
are a shift of at least 256. -/
theorem toUnsigned_wrapped (q : Nat) (h : q < 2) :
    256 ≤ toUnsigned ((u256Sub q 2 : Nat) : Int) := by
  unfold toUnsigned u256Sub
  rw [if_neg (by omega)]
  omega

theorem u256Shl_one_lt (s : Nat) (h : s < 256) : u256Shl 1 s = 2 ^ s := by
  unfold u256Shl
  rw [if_pos h, one_mul]
  exact Nat.mod_eq_of_lt (Nat.pow_lt_pow_right (by decide) h)

theorem u256Shl_ge (x s : Nat) (h : 256 ≤ s) : u256Shl x s = 0 := by
  unfold u256Shl
  rw [if_neg (by omega)]

theorem u256Shl_lt (x s : Nat) : u256Shl x s < 2 ^ 256 := by
  unfold u256Shl
  split
  · exact Nat.mod_lt _ (by positivity)
  · positivity

theorem expTerm_lt (number : Nat) : expTerm number < 2 ^ 256 := u256Shl_lt _ _

/-- Below block 200000 the exponent wraps and the shifted term is zero. -/
theorem expTerm_of_lt (number : Nat) (h : number < 200000) : expTerm number = 0 := by
  unfold expTerm
  exact u256Shl_ge _ _ (toUnsigned_wrapped _ (by omega))

/-- For an exponent below 256 the shifted term is the power of two the specification
names. -/
theorem expTerm_eq_spec (number : Nat) (h : number < 25800000) :
    (expTerm number : Int) = specExpTerm number := by
  unfold specExpTerm
  by_cases hq : number / 100000 < 2
  · rw [expTerm_of_lt number (by omega)]
    simp only [Nat.cast_zero]
    rw [if_neg (by omega)]
  · have hq2 : 2 ≤ number / 100000 := by omega
    have hc0 : (0 : Int) ≤ ((number / 100000 : Nat) : Int) - 2 := by omega
    have hc : ((u256Sub (number / 100000) 2 : Nat) : Int)
        = ((number / 100000 : Nat) : Int) - 2 := by
      rw [u256Sub_of_le _ _ hq2]
      omega
    simp only []
    rw [if_pos hc0]
    unfold expTerm
    simp only []
    rw [hc, toUnsigned_of_lt _ hc0 (by omega), u256Shl_one_lt _ (by omega)]

theorem expTerm_of_ge (number : Nat) (h : 25800000 ≤ number)
    (h32 : number / 100000 < 2 ^ 32) : expTerm number = 0 := by
  unfold expTerm
  apply u256Shl_ge
  rw [u256Sub_of_le _ _ (by omega)]
  unfold toUnsigned
  omega

/-- The exponential term on the range of a 32-bit exponent: the power of two of the
specification below block 25800000, zero from there on. -/
theorem expTerm_cases (number : Nat) (h32 : number / 100000 < 2 ^ 32) :
    (expTerm number : Int) = if number < 25800000 then specExpTerm number else 0 := by
  split
  · next h => exact expTerm_eq_spec _ h
  · next h => rw [expTerm_of_ge _ (by omega) h32]; rfl

/-- For a candidate at most 19 seconds younger than its parent the `u256` multiplier of
the Homestead branch is the signed one, `1 - delta / 10`. -/
theorem homesteadMultiplier_of_lt (bi parent : BlockHeader)
    (h0 : parent.timestamp ≤ bi.timestamp) (h : bi.timestamp < parent.timestamp + 20) :
    homesteadMultiplier bi parent =
      max (1 - Int.tdiv ((bi.timestamp : Int) - (parent.timestamp : Int)) 10) (-99) := by
  unfold homesteadMultiplier
  simp only []
  rw [u256Sub_of_le _ _ h0, u256Sub_of_le _ _ (by omega),
    Int.tdiv_eq_ediv (by omega) (by decide)]
  congr 1
  omega

/-- From a delta of 20 seconds on the `u256` multiplier of the Homestead branch has
wrapped: for a delta of `10 * k` with `k ≥ 2` it is `2 ^ 256 + 1 - k`, which the clamp at
`-99` leaves as it is. -/
theorem homesteadMultiplier_of_ge (bi parent : BlockHeader) (k : Nat)
    (hts : bi.timestamp = parent.timestamp + 10 * k) (hk : 2 ≤ k) (hk' : k < 2 ^ 256) :
    homesteadMultiplier bi parent = 2 ^ 256 + 1 - (k : Int) := by
  have hle : parent.timestamp ≤ bi.timestamp := by omega
  have hq : (bi.timestamp - parent.timestamp) / 10 = k := by omega
  have hw : u256Sub 1 k = 1 + 2 ^ 256 - k := by
    unfold u256Sub
    rw [if_neg (by omega)]
  unfold homesteadMultiplier
  simp only []
  rw [u256Sub_of_le _ _ hle, hq, hw, max_eq_left (by omega)]
  omega

theorem homesteadMultiplier_nonneg (bi parent : BlockHeader) :
    0 ≤ homesteadMultiplier bi parent := by
  unfold homesteadMultiplier
  exact le_trans (Int.natCast_nonneg _) (le_max_left _ _)

/-- For a candidate not older than its parent the test of line 99 is the test on the
signed difference of the timestamps. -/
theorem frontierMultiplier_of_le (bi parent : BlockHeader) (durationLimit : Nat)
    (h0 : parent.timestamp ≤ bi.timestamp) :
    frontierMultiplier bi parent durationLimit =
      if (bi.timestamp : Int) - (parent.timestamp : Int) < (durationLimit : Int)
      then 1 else -1 := by
  unfold frontierMultiplier
  rw [u256Sub_of_le _ _ h0]
  by_cases h : bi.timestamp - parent.timestamp < durationLimit
  · rw [if_pos h, if_pos (by omega)]
  · rw [if_neg h, if_neg (by omega)]

theorem frontierMultiplier_le_one (bi parent : BlockHeader) (durationLimit : Nat) :
    frontierMultiplier bi parent durationLimit ≤ 1 := by
  unfold frontierMultiplier
  split <;> decide

/-- C1, as stated, fails at block 25800000: the claim adds `2 ^ 256`, the check adds
`u256(1) << 256`, which is zero. -/
theorem C1_counterexample :
    (1150000 < 25800000 ∧ 1000 < 1010) ∧
    block_diff ⟨0, 25800000, 1010⟩ ⟨0x100000, 25799999, 1000⟩ .HomesteadTest scenarioParams
      = some 0x100000 ∧
    specHomestead ⟨0, 25800000, 1010⟩ ⟨0x100000, 25799999, 1000⟩ 131072
      = 0x100000 + ((2 ^ 256 : Nat) : Int) ∧
    block_diff ⟨0, 25800000, 1010⟩ ⟨0x100000, 25799999, 1000⟩ .HomesteadTest scenarioParams
      ≠ some (specHomestead ⟨0, 25800000, 1010⟩ ⟨0x100000, 25799999, 1000⟩
          scenarioParams.minimumDifficulty) := by
  decide

/-- C1 (amended): for a candidate `H` with `H.number > frontierCompatibilityModeLimit`,
`P.timestamp < H.timestamp < P.timestamp + 20` and a block number whose exponent
`c = H.number / 100000 - 2` fits 32 bits, the difficulty the check requires is
`max(minimumDifficulty, P.difficulty + (P.difficulty / 2048) * max(1 - (H.timestamp -
P.timestamp) / 10, -99) + E)` with `E = 2 ^ c` for `0 ≤ c < 256` (block numbers below
25800000), `E = 0` for `c < 0` and `E = 0` for `c ≥ 256`, the term being a shift of a
256-bit value. -/
theorem C1_homestead_required_difficulty (bi parent : BlockHeader) (n : Network)
    (p : ChainOperationParams)
    (hera : p.frontierCompatibilityModeLimit < bi.number)
    (hts : parent.timestamp < bi.timestamp)
    (hlt : bi.timestamp < parent.timestamp + 20)
    (h32 : bi.number / 100000 < 2 ^ 32) :
    block_diff bi parent n p =
      some (max (p.minimumDifficulty : Int)
        ((parent.difficulty : Int) + ((parent.difficulty : Int) / 2048) *
            max (1 - Int.tdiv ((bi.timestamp : Int) - (parent.timestamp : Int)) 10) (-99)
          + (if bi.number < 25800000 then specExpTerm bi.number else 0))) := by
  unfold block_diff
  rw [if_pos hera, ← expTerm_cases _ h32,
    ← homesteadMultiplier_of_lt bi parent (Nat.le_of_lt hts) hlt]
  rfl

/-- C1 at the scenario of the specification: parent difficulty `0x100000`, timestamps 1000
and 1010, block 1000000 give `0x100100`. -/
theorem C1_witness :
    (0 < 1000000 ∧ 1000 < 1010 ∧ 1010 < 1000 + 20 ∧ 1000000 / 100000 < 2 ^ 32) ∧
    block_diff ⟨0, 1000000, 1010⟩ ⟨0x100000, 999999, 1000⟩ .HomesteadTest homesteadParams
      = some 0x100100 := by
  refine ⟨by decide, ?_⟩
  rw [C1_homestead_required_difficulty ⟨0, 1000000, 1010⟩ ⟨0x100000, 999999, 1000⟩
    .HomesteadTest homesteadParams (by decide) (by decide) (by decide) (by decide)]
  decide

/-- C2, as stated, fails at block 25800000 of a chain that never leaves the Frontier era:
the claim adds `2 ^ 256`, the check adds `u256(1) << 256`, which is zero; and with a zero
`difficultyBoundDivisor` the check has no value at all. -/
theorem C2_counterexample :
    (25800000 ≤ 2 ^ 64 - 1 ∧ 1000 < 1005) ∧
    block_diff ⟨0, 25800000, 1005⟩ ⟨131072, 25799999, 1000⟩ .FrontierTest frontierParams
      = some 131136 ∧
    specFrontier ⟨0, 25800000, 1005⟩ ⟨131072, 25799999, 1000⟩
      (eraParams .FrontierTest frontierParams) = 131136 + ((2 ^ 256 : Nat) : Int) ∧
    block_diff ⟨0, 25800000, 1005⟩ ⟨131072, 25799999, 1000⟩ .FrontierTest frontierParams
      ≠ some (specFrontier ⟨0, 25800000, 1005⟩ ⟨131072, 25799999, 1000⟩
          (eraParams .FrontierTest frontierParams)) ∧
    block_diff ⟨0, 101, 1005⟩ ⟨131072, 100, 1000⟩ .other zeroDivisorParams = none := by
  decide

/-- C2 (amended): for a candidate `H` with `H.number ≤ frontierCompatibilityModeLimit`,
`H.timestamp > P.timestamp`, a non-zero `difficultyBoundDivisor` and an exponent
`c = H.number / 100000 - 2` that fits 32 bits, the difficulty the check requires is
`max(minimumDifficulty, P.difficulty + a * b + E)` with the parameters the network selects,
`a = P.difficulty / difficultyBoundDivisor`, `b = +1` if `H.timestamp - P.timestamp <
durationLimit` and `-1` otherwise, and `E = 2 ^ c` for `0 ≤ c < 256`, `E = 0` for `c < 0`
and for `c ≥ 256`. -/
theorem C2_frontier_required_difficulty (bi parent : BlockHeader) (n : Network)
    (p : ChainOperationParams)
    (hera : bi.number ≤ p.frontierCompatibilityModeLimit)
    (hts : parent.timestamp < bi.timestamp)
    (hd : (eraParams n p).difficultyBoundDivisor ≠ 0)
    (h32 : bi.number / 100000 < 2 ^ 32) :
    block_diff bi parent n p =
      some (max ((eraParams n p).minimumDifficulty : Int)
        ((parent.difficulty : Int) +
          ((parent.difficulty : Int) / ((eraParams n p).difficultyBoundDivisor : Int)) *
            (if (bi.timestamp : Int) - (parent.timestamp : Int)
                < ((eraParams n p).durationLimit : Int) then 1 else -1)
          + (if bi.number < 25800000 then specExpTerm bi.number else 0))) := by
  unfold block_diff frontierBlockDiff
  rw [if_neg (by omega), if_neg hd, ← expTerm_cases _ h32,
    ← frontierMultiplier_of_le bi parent _ (Nat.le_of_lt hts)]
  rfl

/-- C2 at the scenario of the specification: parent difficulty 131072, timestamps 1000 and
1005, `durationLimit` 13, divisor 2048 give 131136. -/
theorem C2_witness :
    (101 ≤ 1150000 ∧ 1000 < 1005 ∧ 2048 ≠ 0 ∧ 101 / 100000 < 2 ^ 32) ∧
    block_diff ⟨0, 101, 1005⟩ ⟨131072, 100, 1000⟩ .Frontier scenarioParams = some 131136 := by
  refine ⟨by decide, ?_⟩
  rw [C2_frontier_required_difficulty ⟨0, 101, 1005⟩ ⟨131072, 100, 1000⟩ .Frontier
    scenarioParams (by decide) (by decide) (by decide) (by decide)]
  decide

theorem homesteadBlockDiff_ge (bi parent : BlockHeader) (p : ChainOperationParams) :
    (p.minimumDifficulty : Int) ≤ homesteadBlockDiff bi parent p := by
  unfold homesteadBlockDiff
  exact le_max_left _ _

theorem frontierBlockDiff_ge (bi parent : BlockHeader) (e : EraParams) (d : Int)
    (h : frontierBlockDiff bi parent e = some d) : (e.minimumDifficulty : Int) ≤ d := by
  unfold frontierBlockDiff at h
  split at h
  · cases h
  · simp only [Option.some.injEq] at h
    rw [← h]
    exact le_max_left _ _

theorem block_diff_ge (bi parent : BlockHeader) (n : Network) (p : ChainOperationParams)
    (d : Int) (h : block_diff bi parent n p = some d) :
    (minimumDifficultyOf bi n p : Int) ≤ d := by
  unfold block_diff at h
  unfold minimumDifficultyOf
  split at h
  · next hera =>
    rw [if_pos hera]
    simp only [Option.some.injEq] at h
    rw [← h]
    exact homesteadBlockDiff_ge _ _ _
  · next hera =>
    rw [if_neg hera]
    exact frontierBlockDiff_ge _ _ _ _ h

theorem block_diff_isSome (bi parent : BlockHeader) (n : Network) (p : ChainOperationParams)
    (h : p.frontierCompatibilityModeLimit < bi.number ∨
      (eraParams n p).difficultyBoundDivisor ≠ 0) :
    ∃ d, block_diff bi parent n p = some d := by
  unfold block_diff
  split
  · exact ⟨_, rfl⟩
  · next hera =>
    rcases h with h | h
    · exact absurd h hera
    · unfold frontierBlockDiff
      rw [if_neg h]
      exact ⟨_, rfl⟩

theorem div_mul_le (a : Nat) (b : Int) (hb : b ≤ 1) : (a : Int) * b ≤ (a : Int) := by
  have ha : (0 : Int) ≤ (a : Int) := Int.natCast_nonneg _
  nlinarith

/-- C3, as stated, fails for a parent of maximal difficulty and a fast block: the formula
yields `2 ^ 256 - 1 + (2 ^ 256 - 1) / 2048`, which is not a 256-bit value. -/
theorem C3_counterexample :
    (2 ^ 256 - 1 < 2 ^ 256) ∧
    block_diff ⟨0, 1, 1005⟩ ⟨2 ^ 256 - 1, 0, 1000⟩ .Frontier scenarioParams
      = some (((2 ^ 256 - 1 + (2 ^ 256 - 1) / 2048 : Nat) : Int)) ∧
    2 ^ 256 ≤ 2 ^ 256 - 1 + (2 ^ 256 - 1) / 2048 := by
  decide

/-- C3 (amended): for every parent and candidate header (either era, any timestamps and
block number) the difficulty the formula yields is a non-negative integer; it is a
`bigint` that is never reduced to 256 bits, and in the pre-Homestead era, for a parent
difficulty and a minimum difficulty that are 256-bit values, it is below `2 ^ 258`. -/
theorem C3_difficulty_range (bi parent : BlockHeader) (n : Network)
    (p : ChainOperationParams) (d : Int) (h : block_diff bi parent n p = some d) :
    0 ≤ d ∧
    (bi.number ≤ p.frontierCompatibilityModeLimit →
      parent.difficulty < 2 ^ 256 → (eraParams n p).minimumDifficulty < 2 ^ 256 →
      d < 2 ^ 258) := by
  constructor
  · exact le_trans (Int.natCast_nonneg _) (block_diff_ge bi parent n p d h)
  · intro hera hP hmin
    unfold block_diff at h
    rw [if_neg (by omega)] at h
    unfold frontierBlockDiff at h
    split at h
    · cases h
    · simp only [Option.some.injEq] at h
      rw [← h]
      have hab := div_mul_le (parent.difficulty / (eraParams n p).difficultyBoundDivisor)
        _ (frontierMultiplier_le_one bi parent (eraParams n p).durationLimit)
      have ha : ((parent.difficulty / (eraParams n p).difficultyBoundDivisor : Nat) : Int)
          ≤ (parent.difficulty : Int) := by
        exact_mod_cast Nat.div_le_self _ _
      have hE : (expTerm bi.number : Int) < 2 ^ 256 := by
        exact_mod_cast expTerm_lt bi.number
      have hP' : (parent.difficulty : Int) < 2 ^ 256 := by exact_mod_cast hP
      have hmin' : ((eraParams n p).minimumDifficulty : Int) < 2 ^ 256 := by
        exact_mod_cast hmin
      have h258 : (2 : Int) ^ 258 = 4 * 2 ^ 256 := by norm_num
      have hpos : (0 : Int) < 2 ^ 256 := by positivity
      apply max_lt
      · linarith
      · linarith

/-- C3 at the Frontier scenario of the specification: the value 131136 is non-negative
and below `2 ^ 258`. -/
theorem C3_witness :
    block_diff ⟨0, 101, 1005⟩ ⟨131072, 100, 1000⟩ .Frontier scenarioParams = some 131136 ∧
    (0 : Int) ≤ 131136 ∧ (131136 : Int) < 2 ^ 258 := by
  have h : block_diff ⟨0, 101, 1005⟩ ⟨131072, 100, 1000⟩ .Frontier scenarioParams
      = some 131136 := by decide
  have r := C3_difficulty_range ⟨0, 101, 1005⟩ ⟨131072, 100, 1000⟩ .Frontier
    scenarioParams 131136 h
  exact ⟨h, r.1, r.2 (by decide) (by decide) (by decide)⟩

/-- C9: in both eras, for every parent and candidate header, every network and every
chain-parameter setting, the difficulty the formula yields is never below the minimum
difficulty in force (the chain parameter in the Homestead branch, the value the network
selects in the pre-Homestead branch); and the formula does yield a value in the Homestead
era and whenever the divisor is non-zero. -/
theorem C9_never_below_minimum (bi parent : BlockHeader) (n : Network)
    (p : ChainOperationParams) :
    (∀ d, block_diff bi parent n p = some d → (minimumDifficultyOf bi n p : Int) ≤ d) ∧
    ((p.frontierCompatibilityModeLimit < bi.number ∨
        (eraParams n p).difficultyBoundDivisor ≠ 0) →
      ∃ d, block_diff bi parent n p = some d) :=
  ⟨fun d h => block_diff_ge bi parent n p d h, block_diff_isSome bi parent n p⟩

/-- C9 at a slow block on the minimum: parent difficulty 131072 and a delta of 20 seconds
give `max(131072, 131072 - 64) = 131072`. -/
theorem C9_witness :
    block_diff ⟨0, 101, 1020⟩ ⟨131072, 100, 1000⟩ .Frontier scenarioParams = some 131072 ∧
    ((131072 : Nat) : Int) ≤ 131072 := by
  have h : block_diff ⟨0, 101, 1020⟩ ⟨131072, 100, 1000⟩ .Frontier scenarioParams
      = some 131072 := by decide
  exact ⟨h, (C9_never_below_minimum ⟨0, 101, 1020⟩ ⟨131072, 100, 1000⟩ .Frontier
    scenarioParams).1 131072 h⟩

/-- C10 at `k = 2`: the check does not compute what the claim says. With parent
difficulty `0x100000` at timestamp 1000 and a Homestead candidate at timestamp 1020, the
multiplier `1 - 2` is formed in `u256` arithmetic and wraps to `2 ^ 256 - 1`, the clamp
`max<bigint>(b, -99)` keeps it, and `block_diff` is `0x100000 + 512 * (2 ^ 256 - 1) + 256`
where the claim has `0x100000 + 512 * (1 - 2) + 256`. -/
theorem C10_failing_input :
    (0 < 1000000 ∧ 1020 = 1000 + 10 * 2) ∧
    homesteadMultiplier ⟨0, 1000000, 1020⟩ ⟨0x100000, 999999, 1000⟩
      = ((2 ^ 256 - 1 : Nat) : Int) ∧
    block_diff ⟨0, 1000000, 1020⟩ ⟨0x100000, 999999, 1000⟩ .HomesteadTest homesteadParams
      = some (((0x100000 + 512 * (2 ^ 256 - 1) + 256 : Nat) : Int)) ∧
    specHomestead ⟨0, 1000000, 1020⟩ ⟨0x100000, 999999, 1000⟩ 131072
      = 0x100000 - 512 + 256 ∧
    block_diff ⟨0, 1000000, 1020⟩ ⟨0x100000, 999999, 1000⟩ .HomesteadTest homesteadParams
      ≠ some (specHomestead ⟨0, 1000000, 1020⟩ ⟨0x100000, 999999, 1000⟩ 131072) := by
  decide

/-! ## Theorems: bloom chunk identifiers -/

theorem fromBigEndian_append (l : List Nat) (b : Nat) :
    fromBigEndian (l ++ [b]) = fromBigEndian l * 256 + b := by
  unfold fromBigEndian
  rw [List.foldl_append]
  rfl

theorem toBigEndian_length (n v : Nat) : (toBigEndian v n).length = n := by
  induction n generalizing v with
  | zero => rfl
  | succ n ih => simp [toBigEndian, ih]

/-- Reading back `n` big-endian octets gives the value modulo `256 ^ n`. -/
theorem fromBigEndian_toBigEndian (n v : Nat) :
    fromBigEndian (toBigEndian v n) = v % 256 ^ n := by
  induction n generalizing v with
  | zero => simp [toBigEndian, fromBigEndian, Nat.mod_one]
  | succ n ih =>
    rw [toBigEndian, fromBigEndian_append, ih, pow_succ, Nat.mul_comm (256 ^ n) 256,
      Nat.mod_mul]
    omega

theorem h256_ofUnsigned_toNat (u : Nat) (h : u < 2 ^ 32) : (h256.ofUnsigned u).toNat = u := by
  unfold h256.toNat h256.ofUnsigned
  rw [fromBigEndian_toBigEndian]
  apply Nat.mod_eq_of_lt
  calc u < 2 ^ 32 := h
    _ ≤ 256 ^ 32 := by decide

/-- C4, as stated, fails once the product leaves 32 bits: `chunkId(0, 16843010)` holds
254, not `16843010 * 255 = 4294967550`. -/
theorem C4_counterexample :
    (0 < 2 ^ 32 ∧ 16843010 < 2 ^ 32) ∧
    (chunkId 0 16843010).toNat = 254 ∧ 16843010 * 255 + 0 = 4294967550 := by
  decide

/-- C4 (amended): for every level and index, `chunkId(level, index)` is the thirty-two
octet big-endian integer whose value is `index * 255 + level` reduced modulo `2 ^ 32`
(the sum is formed in `unsigned` arithmetic); it is exactly `index * 255 + level` whenever
that is below `2 ^ 32`. -/
theorem C4_chunkId_value (level index : Nat) :
    (chunkId level index).toNat = (index * 255 + level) % 2 ^ 32 ∧
    (chunkId level index).data.length = 32 ∧
    (index * 255 + level < 2 ^ 32 → (chunkId level index).toNat = index * 255 + level) := by
  have hv : (chunkId level index).toNat = (index * 255 + level) % 2 ^ 32 := by
    unfold chunkId
    rw [h256_ofUnsigned_toNat _ (Nat.mod_lt _ (by positivity))]
    omega
  refine ⟨hv, ?_, ?_⟩
  · unfold chunkId h256.ofUnsigned
    exact toBigEndian_length _ _
  · intro h
    rw [hv, Nat.mod_eq_of_lt h]

/-! ## Theorems: tree routes -/

theorem lookup_mem {α β : Type} [DecidableEq α] (l : List (α × β)) (a : α) (b : β)
    (h : l.lookup a = some b) : (a, b) ∈ l := by
  induction l with
  | nil => simp at h
  | cons e l ih =>
    obtain ⟨k, v⟩ := e
    rw [List.lookup_cons] at h
    by_cases hk : a = k
    · subst hk
      simp at h
      subst h
      exact List.mem_cons_self _ _
    · have : (a == k) = false := by simpa using hk
      rw [this] at h
      exact List.mem_cons_of_mem _ (ih h)

/-- A table that passes the check gives a well-formed tree. -/
theorem wellFormed_of_table (l : List (h256 × BlockDetails)) (g : h256)
    (h : wellFormedTable l g = true) : WellFormed (BlockTree.ofList l) g := by
  unfold wellFormedTable at h
  rw [Bool.and_eq_true] at h
  obtain ⟨hg, hall⟩ := h
  constructor
  · unfold BlockTree.ofList
    cases hl : l.lookup g with
    | none => rw [hl] at hg; cases hg
    | some d =>
      rw [hl] at hg
      exact ⟨d, rfl, by simpa using hg⟩
  · intro x d hx hne
    unfold BlockTree.ofList at hx ⊢
    have hmem := lookup_mem l x d hx
    rw [List.all_eq_true] at hall
    have := hall (x, d) hmem
    simp only [Bool.or_eq_true, decide_eq_true_eq] at this
    rcases this with h1 | h2
    · exact absurd h1 hne
    · cases hp : l.lookup d.parentHash with
      | none => rw [hp] at h2; cases h2
      | some dp =>
        rw [hp] at h2
        exact ⟨dp, rfl, by simpa using h2⟩

theorem docTree_wellFormed : WellFormed docTree docG :=
  wellFormed_of_table docTable _ (by decide)

/-- In a well-formed tree the only block of number 0 is the genesis block. -/
theorem eq_genesis_of_number_zero {t : BlockTree} {g : h256} (hwf : WellFormed t g)
    {h : h256} {d : BlockDetails} (ht : t h = some d) (h0 : d.number = 0) : h = g := by
  by_contra hne
  obtain ⟨dp, _, hnum⟩ := hwf.2 h d ht hne
  omega

/-- A block of positive number has a known parent, one lower. -/
theorem parent_known {t : BlockTree} {g : h256} (hwf : WellFormed t g)
    {h : h256} {d : BlockDetails} (ht : t h = some d) (hpos : 0 < d.number) :
    ∃ dp, t d.parentHash = some dp ∧ dp.number + 1 = d.number := by
  apply hwf.2 h d ht
  intro hg
  obtain ⟨dg, hdg, h0⟩ := hwf.1
  rw [hg, hdg] at ht
  cases ht
  omega

/-- The walk of steps 1 and 2 in a well-formed tree: `k` steps from a block of number at
least `k` succeed, collect `pathUp`, and stop at the `k`-th ancestor. -/
theorem climb_spec {t : BlockTree} {g : h256} (hwf : WellFormed t g) :
    ∀ (k : Nat) (h : h256) (d : BlockDetails), t h = some d → k ≤ d.number →
      ∃ top dtop, climb t k h = some (pathUp t k h, top) ∧ ancestor t k h = some top ∧
        t top = some dtop ∧ dtop.number + k = d.number ∧ (pathUp t k h).length = k := by
  intro k
  induction k with
  | zero =>
    intro h d ht _
    exact ⟨h, d, rfl, rfl, ht, rfl, rfl⟩
  | succ k ih =>
    intro h d ht hk
    obtain ⟨dp, hp, hnum⟩ := parent_known hwf ht (by omega)
    obtain ⟨top, dtop, hc, ha, htop, hn, hl⟩ := ih d.parentHash dp hp (by omega)
    refine ⟨top, dtop, ?_, ?_, htop, by omega, ?_⟩
    · simp only [climb, pathUp, ht, hc]
    · simp only [ancestor, ht, ha]
    · simp only [pathUp, ht, List.length_cons, hl]

theorem ancestor_add (t : BlockTree) (i r : Nat) (h : h256) :
    ancestor t (i + r) h = (ancestor t i h).bind (ancestor t r) := by
  induction i generalizing h with
  | zero => simp [ancestor]
  | succ i ih =>
    rw [Nat.succ_add]
    cases ht : t h with
    | none => simp [ancestor, ht]
    | some d => simp [ancestor, ht, ih]

theorem pathUp_add (t : BlockTree) (i m : Nat) (h top : h256)
    (ha : ancestor t i h = some top) :
    pathUp t (i + m) h = pathUp t i h ++ pathUp t m top := by
  induction i generalizing h with
  | zero =>
    simp only [ancestor, Option.some.injEq] at ha
    subst ha
    simp [pathUp]
  | succ i ih =>
    rw [Nat.succ_add]
    cases ht : t h with
    | none => simp [ancestor, ht] at ha
    | some d =>
      simp only [ancestor, ht] at ha
      simp only [pathUp, ht, ih _ ha, List.cons_append]

/-- The number of the `k`-th ancestor of a block is `k` lower. -/
theorem ancestor_number {t : BlockTree} {g : h256} (hwf : WellFormed t g)
    {k : Nat} {h x : h256} {d : BlockDetails} (ht : t h = some d) (hk : k ≤ d.number)
    (hx : ancestor t k h = some x) : ∃ dx, t x = some dx ∧ dx.number + k = d.number := by
  obtain ⟨top, dtop, _, ha, htop, hn, _⟩ := climb_spec hwf k h d ht hk
  rw [ha] at hx
  cases hx
  exact ⟨dtop, htop, hn⟩

/-- The walk of step 3 in a well-formed tree: two blocks of number `n` meet within `n`
steps, at their first common ancestor. -/
theorem lockstep_spec {t : BlockTree} {g : h256} (hwf : WellFormed t g) :
    ∀ (n : Nat) (f f' : h256) (df df' : BlockDetails), t f = some df → t f' = some df' →
      df.number = n → df'.number = n →
      ∃ m c, m ≤ n ∧ lockstep t n f f' = some (pathUp t m f, pathUp t m f', c) ∧
        ancestor t m f = some c ∧ ancestor t m f' = some c ∧
        ∀ m', m' < m → ancestor t m' f ≠ ancestor t m' f' := by
  intro n
  induction n with
  | zero =>
    intro f f' df df' hf hf' h0 h0'
    have e : f = f' :=
      (eq_genesis_of_number_zero hwf hf h0).trans (eq_genesis_of_number_zero hwf hf' h0').symm
    subst e
    exact ⟨0, f, le_refl _, by simp [lockstep, pathUp], rfl, rfl, fun m' hm' => by omega⟩
  | succ n ih =>
    intro f f' df df' hf hf' hn hn'
    by_cases heq : f = f'
    · subst heq
      exact ⟨0, f, Nat.zero_le _, by simp [lockstep, pathUp], rfl, rfl,
        fun m' hm' => by omega⟩
    · obtain ⟨dp, hp, hpn⟩ := parent_known hwf hf (by omega)
      obtain ⟨dp', hp', hpn'⟩ := parent_known hwf hf' (by omega)
      obtain ⟨m, c, hm, hl, ha, ha', hmin⟩ :=
        ih df.parentHash df'.parentHash dp dp' hp hp' (by omega) (by omega)
      refine ⟨m + 1, c, by omega, ?_, ?_, ?_, ?_⟩
      · simp only [lockstep, heq, if_false, hf, hf', hl, pathUp]
      · simp only [ancestor, hf, ha]
      · simp only [ancestor, hf', ha']
      · intro m' hm'
        cases m' with
        | zero =>
          simp only [ancestor]
          intro hcontra
          exact heq (Option.some.inj hcontra)
        | succ k =>
          simp only [ancestor, hf, hf']
          exact hmin k (by omega)

/-- Step 3 is symmetric: exchanging the two pointers exchanges the two lists. -/
theorem lockstep_swap (t : BlockTree) (n : Nat) (f f' : h256) :
    lockstep t n f' f = (lockstep t n f f').map (fun r => (r.2.1, r.1, r.2.2)) := by
  induction n generalizing f f' with
  | zero =>
    by_cases heq : f = f'
    · subst heq
      simp [lockstep]
    · have heq' : ¬ f' = f := fun h => heq h.symm
      simp [lockstep, heq, heq']
  | succ n ih =>
    by_cases heq : f = f'
    · subst heq
      simp [lockstep]
    · have heq' : ¬ f' = f := fun h => heq h.symm
      cases hf : t f with
      | none =>
        cases hf' : t f' <;> simp [lockstep, heq, heq', hf, hf']
      | some df =>
        cases hf' : t f' with
        | none => simp [lockstep, heq, heq', hf, hf']
        | some df' =>
          simp only [lockstep, heq, heq', if_false, hf, hf']
          rw [ih df.parentHash df'.parentHash]
          cases lockstep t n df.parentHash df'.parentHash <;> simp

/-- No block nearer than the meeting point of step 3 is an ancestor of both blocks. -/
theorem route_minimal {t : BlockTree} {g : h256} (hwf : WellFormed t g)
    {a b top top' : h256} {da db : BlockDetails} (ha : t a = some da) (hb : t b = some db)
    {i0 j0 n m : Nat} (hi0 : i0 + n = da.number) (hj0 : j0 + n = db.number)
    (hz : i0 = 0 ∨ j0 = 0)
    (hat : ancestor t i0 a = some top) (hat' : ancestor t j0 b = some top')
    (hmin : ∀ m', m' < m → ancestor t m' top ≠ ancestor t m' top')
    (k k' : Nat) (x : h256) (hk : k ≤ da.number) (hk' : k' ≤ db.number)
    (hxa : ancestor t k a = some x) (hxb : ancestor t k' b = some x) :
    i0 + m ≤ k ∧ j0 + m ≤ k' := by
  obtain ⟨dx, hdx, hdxn⟩ := ancestor_number hwf ha hk hxa
  obtain ⟨dx', hdx', hdxn'⟩ := ancestor_number hwf hb hk' hxb
  rw [hdx] at hdx'
  cases hdx'
  have hk0 : i0 ≤ k := by omega
  have hk0' : j0 ≤ k' := by omega
  obtain ⟨r, rfl⟩ := Nat.exists_eq_add_of_le hk0
  obtain ⟨r', rfl⟩ := Nat.exists_eq_add_of_le hk0'
  have hsame : r' = r := by omega
  subst hsame
  have e1 : ancestor t r' top = some x := by
    have := ancestor_add t i0 r' a
    rw [hat, hxa] at this
    exact this.symm
  have e2 : ancestor t r' top' = some x := by
    have := ancestor_add t j0 r' b
    rw [hat', hxb] at this
    exact this.symm
  have hge : m ≤ r' := by
    by_contra hlt
    exact hmin r' (Nat.lt_of_not_le hlt) (e1.trans e2.symm)
  constructor <;> omega

/-- Steps 1 to 3 on two known blocks of a well-formed tree, `i0` and `j0` being the numbers
of blocks by which they stand above the lower of the two. -/
theorem route_core {t : BlockTree} {g : h256} (hwf : WellFormed t g)
    {a b : h256} {da db : BlockDetails} (ha : t a = some da) (hb : t b = some db)
    {i0 j0 n : Nat} (hi0 : i0 + n = da.number) (hj0 : j0 + n = db.number)
    (hz : i0 = 0 ∨ j0 = 0) :
    ∃ m c dc top top',
      climb t i0 a = some (pathUp t i0 a, top) ∧
      climb t j0 b = some (pathUp t j0 b, top') ∧
      lockstep t n top top' = some (pathUp t m top, pathUp t m top', c) ∧
      pathUp t (i0 + m) a = pathUp t i0 a ++ pathUp t m top ∧
      pathUp t (j0 + m) b = pathUp t j0 b ++ pathUp t m top' ∧
      ancestor t (i0 + m) a = some c ∧ ancestor t (j0 + m) b = some c ∧ t c = some dc ∧
      dc.number + (i0 + m) = da.number ∧ dc.number + (j0 + m) = db.number ∧
      (pathUp t (i0 + m) a).length = i0 + m ∧ (pathUp t (j0 + m) b).length = j0 + m ∧
      (∀ k k' x, k ≤ da.number → k' ≤ db.number → ancestor t k a = some x →
        ancestor t k' b = some x → i0 + m ≤ k ∧ j0 + m ≤ k') := by
  have hle : i0 ≤ da.number := by omega
  have hle' : j0 ≤ db.number := by omega
  obtain ⟨top, dtop, hc, hat, htop, hn, hl⟩ := climb_spec hwf i0 a da ha hle
  obtain ⟨top', dtop', hc', hat', htop', hn', hl'⟩ := climb_spec hwf j0 b db hb hle'
  have hnum : dtop.number = n := by omega
  have hnum' : dtop'.number = n := by omega
  obtain ⟨m, c, hm, hlock, hac, hac', hmin⟩ :=
    lockstep_spec hwf n top top' dtop dtop' htop htop' hnum hnum'
  have hmle : m ≤ dtop.number := by omega
  obtain ⟨dc, hdc, hdcn⟩ := ancestor_number hwf htop hmle hac
  have hi : ancestor t (i0 + m) a = some c := by
    rw [ancestor_add, hat]; exact hac
  have hj : ancestor t (j0 + m) b = some c := by
    rw [ancestor_add, hat']; exact hac'
  have hile : i0 + m ≤ da.number := by omega
  have hjle : j0 + m ≤ db.number := by omega
  obtain ⟨_, _, _, _, _, _, hli⟩ := climb_spec hwf (i0 + m) a da ha hile
  obtain ⟨_, _, _, _, _, _, hlj⟩ := climb_spec hwf (j0 + m) b db hb hjle
  have hn1 : dc.number + (i0 + m) = da.number := by omega
  have hn2 : dc.number + (j0 + m) = db.number := by omega
  exact ⟨m, c, dc, top, top', hc, hc', hlock, pathUp_add t i0 m a top hat,
    pathUp_add t j0 m b top' hat', hi, hj, hdc, hn1, hn2, hli, hlj,
    fun k k' x hk hk' hxa hxb =>
      route_minimal hwf ha hb hi0 hj0 hz hat hat' hmin k k' x hk hk' hxa hxb⟩

/-- The route between two known blocks of a well-formed tree: `treeRoute` returns, in
both directions, the list of step 4 through one and the same block `c`, which is an
ancestor of both, `i` links above the one and `j` links above the other, and no block
nearer to either is an ancestor of both. -/
theorem treeRoute_spec {t : BlockTree} {g : h256} (hwf : WellFormed t g)
    {a b : h256} {da db : BlockDetails} (ha : t a = some da) (hb : t b = some db) :
    ∃ i j c dc, i ≤ da.number ∧ j ≤ db.number ∧
      ancestor t i a = some c ∧ ancestor t j b = some c ∧ t c = some dc ∧
      dc.number + i = da.number ∧ dc.number + j = db.number ∧
      (pathUp t i a).length = i ∧ (pathUp t j b).length = j ∧
      (∀ k k' x, k ≤ da.number → k' ≤ db.number → ancestor t k a = some x →
        ancestor t k' b = some x → i ≤ k ∧ j ≤ k') ∧
      (∀ co pr po, treeRoute t a b co pr po =
        some (routeList t a b c i j co pr po, c, if pr then i else 0)) ∧
      (∀ co pr po, treeRoute t b a co pr po =
        some (routeList t b a c j i co pr po, c, if pr then j else 0)) := by
  have hi0 : (da.number - db.number) + min da.number db.number = da.number := by omega
  have hj0 : (db.number - da.number) + min da.number db.number = db.number := by omega
  have hz : da.number - db.number = 0 ∨ db.number - da.number = 0 := by omega
  obtain ⟨m, c, dc, top, top', hc, hc', hlock, hpi, hpj, hi, hj, hdc, hn1, hn2, hli, hlj,
    hmin⟩ := route_core hwf ha hb hi0 hj0 hz
  have hile : da.number - db.number + m ≤ da.number := Nat.le.intro (by rw [Nat.add_comm]; exact hn1)
  have hjle : db.number - da.number + m ≤ db.number := Nat.le.intro (by rw [Nat.add_comm]; exact hn2)
  refine ⟨da.number - db.number + m, db.number - da.number + m, c, dc, hile, hjle,
    hi, hj, hdc, hn1, hn2, hli, hlj, hmin, ?_, ?_⟩
  · intro co pr po
    unfold treeRoute routeList
    simp only [ha, hb, hc, hc', hlock, ← hpi, ← hpj]
    cases pr <;> simp [hli]
  · intro co pr po
    unfold treeRoute routeList
    have hsw := lockstep_swap t (min da.number db.number) top top'
    rw [hlock] at hsw
    simp only [Option.map_some'] at hsw
    simp only [ha, hb, hc, hc', Nat.min_comm db.number da.number, hsw, ← hpi, ← hpj]
    cases pr <;> simp [hlj]

/-- The meeting point of a route is the latest common ancestor: every block that lies on
the paths of both blocks to the root lies on the path of the meeting point. -/
theorem isAncestor_of_common {t : BlockTree} {a b c x : h256} {da db dc : BlockDetails}
    {i j : Nat} (ha : t a = some da) (hb : t b = some db) (hdc : t c = some dc)
    (hi : ancestor t i a = some c) (hn : dc.number + i = da.number)
    (hmin : ∀ k k' x, k ≤ da.number → k' ≤ db.number → ancestor t k a = some x →
      ancestor t k' b = some x → i ≤ k ∧ j ≤ k')
    (hxa : IsAncestor t x a) (hxb : IsAncestor t x b) : IsAncestor t x c := by
  obtain ⟨d, k, hd, hk, hka⟩ := hxa
  obtain ⟨d', k', hd', hk', hkb⟩ := hxb
  rw [ha] at hd
  cases hd
  rw [hb] at hd'
  cases hd'
  obtain ⟨hik, _⟩ := hmin k k' x hk hk' hka hkb
  obtain ⟨r, rfl⟩ := Nat.exists_eq_add_of_le hik
  refine ⟨dc, r, hdc, by omega, ?_⟩
  have := ancestor_add t i r a
  rw [hi, hka] at this
  exact this.symm

/-- C5: for two known blocks `from` and `to` of a well-formed block tree,
`treeRoute(from, to, includeCommon = false, includePre = true, includePost = true)` returns
`(pre ++ post, common, |pre|)`, where `pre` lists the `i` blocks from `from` towards the
root down to just above `common`, `post` lists the `j` blocks from just above `common` up
to `to`, and `common`, the block `i` links above `from` and `j` links above `to`, is the
latest common ancestor: every common ancestor of the two is an ancestor of `common`. -/
theorem C5_treeRoute_route (t : BlockTree) (g : h256) (hwf : WellFormed t g)
    (_from _to : h256) (df dt : BlockDetails)
    (hf : t _from = some df) (ht : t _to = some dt) :
    ∃ i j common,
      treeRoute t _from _to false true true =
        some (pathUp t i _from ++ (pathUp t j _to).reverse, common,
          (pathUp t i _from).length) ∧
      (pathUp t i _from).length = i ∧ (pathUp t j _to).length = j ∧
      ancestor t i _from = some common ∧ ancestor t j _to = some common ∧
      IsAncestor t common _from ∧ IsAncestor t common _to ∧
      ∀ x, IsAncestor t x _from → IsAncestor t x _to → IsAncestor t x common := by
  obtain ⟨i, j, c, dc, hile, hjle, hi, hj, hdc, hn1, _, hli, hlj, hmin, hroute, _⟩ :=
    treeRoute_spec hwf hf ht
  refine ⟨i, j, c, ?_, hli, hlj, hi, hj, ⟨df, i, hf, hile, hi⟩, ⟨dt, j, ht, hjle, hj⟩, ?_⟩
  · rw [hroute false true true, hli]
    simp [routeList]
  · intro x hxa hxb
    exact isAncestor_of_common hf ht hdc hi hn1 hmin hxa hxb

/-- C5 on the tree of the documentation: `treeRoute(3a, 2b, false)` is
`([3a, 2a, 1a, 1b, 2b], g, 3)` and `treeRoute(1b, 2a, false)` is `([1b, 1a, 2a], g, 1)`. -/
theorem C5_witness :
    treeRoute docTree doc3a doc2b false true true =
      some ([doc3a, doc2a, doc1a, doc1b, doc2b],
        docG, 3) ∧
    treeRoute docTree doc1b doc2a false true true =
      some ([doc1b, doc1a, doc2a], docG, 1) ∧
    ∃ i j common,
      treeRoute docTree doc3a doc2b false true true =
        some (pathUp docTree i doc3a ++ (pathUp docTree j doc2b).reverse,
          common, (pathUp docTree i doc3a).length) ∧
      (pathUp docTree i doc3a).length = i ∧
      (pathUp docTree j doc2b).length = j ∧
      ancestor docTree i doc3a = some common ∧
      ancestor docTree j doc2b = some common ∧
      IsAncestor docTree common doc3a ∧ IsAncestor docTree common doc2b ∧
      ∀ x, IsAncestor docTree x doc3a → IsAncestor docTree x doc2b →
        IsAncestor docTree x common :=
  ⟨by decide, by decide,
    C5_treeRoute_route docTree docG docTree_wellFormed doc3a
      doc2b ⟨3, 4, doc2a, []⟩ ⟨2, 3, doc1b, []⟩
      (by decide) (by decide)⟩

/-- C6 on the tree of the documentation, where `1a` is the parent of `2a`: the route of
§4.8 does not list the common ancestor when `includeCommon` is false, so
`treeRoute(2a, 1a, false)` is `([2a], 1a, 1)` where the documentation of `treeRoute`
(lines 260-261) has `([2a, 1a], 1a, 1)`, and `treeRoute(1a, 2a, false)` is `([2a], 1a, 0)`
where it has `([1a, 2a], 1a, 0)`. -/
theorem C6_failing_input :
    ancestor docTree 1 doc2a = some doc1a ∧
    treeRoute docTree doc2a doc1a false true true =
      some ([doc2a], doc1a, 1) ∧
    treeRoute docTree doc2a doc1a false true true ≠
      some ([doc2a, doc1a], doc1a, 1) ∧
    treeRoute docTree doc1a doc2a false true true =
      some ([doc2a], doc1a, 0) ∧
    treeRoute docTree doc1a doc2a false true true ≠
      some ([doc1a, doc2a], doc1a, 0) := by
  decide

/-- The route to an ancestor on the model of §4.8: when `to` is the ancestor `k` links
above `from` in a well-formed tree, `treeRoute(from, to, includeCommon = false)` returns
the `k` blocks from `from` down to just above `to`, the common ancestor `to` and
`commonIndex = k`; `treeRoute(to, from, false)` returns the same blocks in the opposite
order with `commonIndex = 0`. -/
theorem treeRoute_to_ancestor (t : BlockTree) (g : h256) (hwf : WellFormed t g)
    (_from _to : h256) (df : BlockDetails) (k : Nat)
    (hf : t _from = some df) (hk : k ≤ df.number)
    (hanc : ancestor t k _from = some _to) :
    treeRoute t _from _to false true true = some (pathUp t k _from, _to, k) ∧
    treeRoute t _to _from false true true = some ((pathUp t k _from).reverse, _to, 0) ∧
    (pathUp t k _from).length = k := by
  obtain ⟨dt, ht, hdtn⟩ := ancestor_number hwf hf hk hanc
  obtain ⟨i, j, c, dc, _, _, hi, hj, hdc, hn1, _, hli, _, hmin, hroute, hback⟩ :=
    treeRoute_spec hwf hf ht
  have hj0 : j = 0 := by
    have := (hmin k 0 _to hk (Nat.zero_le _) hanc rfl).2
    omega
  subst hj0
  have hc : _to = c := by
    simp only [ancestor, Option.some.injEq] at hj
    exact hj
  subst hc
  rw [ht] at hdc
  cases hdc
  have hik : i = k := by omega
  subst hik
  refine ⟨?_, ?_, hli⟩
  · rw [hroute false true true]
    simp [routeList, pathUp]
  · rw [hback false true true]
    simp [routeList, pathUp]

/-- C7: for two known blocks `a` and `b` of a well-formed block tree and either choice of
`includeCommon` (with `pre` and `post` both included), `treeRoute(a, b)` and
`treeRoute(b, a)` return the same common ancestor, and the hash list of `treeRoute(b, a)`
is the reverse of the hash list of `treeRoute(a, b)`. -/
theorem C7_treeRoute_symmetry (t : BlockTree) (g : h256) (hwf : WellFormed t g)
    (a b : h256) (da db : BlockDetails) (ha : t a = some da) (hb : t b = some db)
    (_common : Bool) :
    ∃ l c i j,
      treeRoute t a b _common true true = some (l, c, i) ∧
      treeRoute t b a _common true true = some (l.reverse, c, j) := by
  obtain ⟨i, j, c, _, _, _, _, _, _, _, _, _, _, _, hroute, hback⟩ := treeRoute_spec hwf ha hb
  refine ⟨routeList t a b c i j _common true true, c, i, j, ?_, ?_⟩
  · rw [hroute _common true true]; rfl
  · rw [hback _common true true]
    cases _common <;> simp [routeList]

/-- C7 on the tree of the documentation, with the common ancestor included:
`treeRoute(3a, 2b, true)` lists `[3a, 2a, 1a, g, 1b, 2b]` and `treeRoute(2b, 3a, true)`
the reverse, both with common ancestor `g`. -/
theorem C7_witness :
    treeRoute docTree doc3a doc2b true true true =
      some ([doc3a, doc2a, doc1a, docG, doc1b,
        doc2b], docG, 3) ∧
    treeRoute docTree doc2b doc3a true true true =
      some ([doc2b, doc1b, docG, doc1a, doc2a,
        doc3a], docG, 2) ∧
    ∃ l c i j,
      treeRoute docTree doc3a doc2b true true true = some (l, c, i) ∧
      treeRoute docTree doc2b doc3a true true true
        = some (l.reverse, c, j) :=
  ⟨by decide, by decide,
    C7_treeRoute_symmetry docTree docG docTree_wellFormed doc3a
      doc2b ⟨3, 4, doc2a, []⟩ ⟨2, 3, doc1b, []⟩
      (by decide) (by decide) true⟩

/-! ## Theorems: transaction lookups -/

/-- The lookup of a transaction address returns the record of the hash, and leaves both
stores as they were. -/
theorem queryTransactionAddress_of_record (c : Codec) (bc : BlockChain) (t : h256)
    (ta : TransactionAddress) (h : bc.transactionAddressRecord c t = some ta) :
    (bc.queryTransactionAddress c t).1 = ta ∧
    (bc.queryTransactionAddress c t).2.m_blocksDB = bc.m_blocksDB ∧
    (bc.queryTransactionAddress c t).2.m_extrasDB = bc.m_extrasDB := by
  unfold BlockChain.transactionAddressRecord at h
  unfold BlockChain.queryTransactionAddress queryExtras
  cases hm : bc.m_transactionAddresses t with
  | some v =>
    rw [hm] at h
    simp only [Option.some.injEq] at h
    subst h
    exact ⟨rfl, rfl, rfl⟩
  | none =>
    rw [hm] at h
    simp only at h
    by_cases hs : bc.m_extrasDB (.hash t) ExtraTransactionAddress = []
    · rw [if_pos hs] at h
      cases h
    · rw [if_neg hs] at h
      simp only [Option.some.injEq] at h
      subst h
      simp [hs, cacheInsert, hm, BlockChain.noteUsed]

theorem items_getD_raw (l : List RLP) (i : Nat) (hi : i < l.length) :
    (l.map RLP.raw)[i]? = some (l.getD i RLP.null).raw := by
  rw [List.getElem?_map, List.getD_eq_getElem?_getD, List.getElem?_eq_getElem hi]
  rfl

/-- C8: for a transaction hash `t` whose `TransactionAddress` record is `(h, i)` with `h`
non-zero and `i` less than the number of transactions of the stored block `h`,
`transactionLocation(t)` is `(h, i)` and the by-hash lookup `transaction(t)` returns
exactly the `i`-th element of `transactions(h)`, which is also `transaction(h, i)`. -/
theorem C8_transaction_lookup (c : Codec) (bc : BlockChain) (t h : h256) (i : Nat)
    (hrec : bc.transactionAddressRecord c t = some ⟨h, i⟩)
    (hz : h ≠ h256.zero)
    (hi : i < (bc.transactions c h).length) :
    (bc.transactionLocation c t).1 = (h, i) ∧
    (bc.transactions c h)[i]? = some (bc.transaction c t).1 ∧
    (bc.transaction c t).1 = bc.transactionAt c h i := by
  obtain ⟨hq, hblocks, _⟩ := queryTransactionAddress_of_record c bc t ⟨h, i⟩ hrec
  have hb : (⟨h, i⟩ : TransactionAddress).toBool = true := by
    simp [TransactionAddress.toBool, hz]
  have htx : (bc.transaction c t).1 = bc.transactionAt c h i := by
    unfold BlockChain.transaction
    simp only [hq, hb, Bool.not_true, Bool.false_eq_true, if_false]
    unfold BlockChain.transactionAt BlockChain.block
    rw [hblocks]
  refine ⟨?_, ?_, htx⟩
  · unfold BlockChain.transactionLocation
    simp only [hq, hb, Bool.not_true, Bool.false_eq_true, if_false]
  · rw [htx]
    unfold BlockChain.transactions at hi ⊢
    unfold BlockChain.transactionAt RLP.get
    simp only [List.length_map] at hi
    exact items_getD_raw _ i hi

/-- C8 on the example chain: transaction 99 is located in block 7 at index 1, and the
lookup by hash returns `[20]`, the second of the transactions `[10], [20], [30]`. -/
theorem C8_witness :
    (exampleChain.transactionAddressRecord exampleCodec (.ofUnsigned 99)
        = some ⟨.ofUnsigned 7, 1⟩ ∧
      h256.ofUnsigned 7 ≠ h256.zero ∧
      1 < (exampleChain.transactions exampleCodec (.ofUnsigned 7)).length) ∧
    (exampleChain.transactionLocation exampleCodec (.ofUnsigned 99)).1
      = (.ofUnsigned 7, 1) ∧
    exampleChain.transactions exampleCodec (.ofUnsigned 7) = [[10], [20], [30]] ∧
    (exampleChain.transaction exampleCodec (.ofUnsigned 99)).1 = [20] := by
  have h := C8_transaction_lookup exampleCodec exampleChain (.ofUnsigned 99) (.ofUnsigned 7)
    1 (by decide) (by decide) (by decide)
  refine ⟨by decide, h.1, by decide, ?_⟩
  rw [h.2.2]
  decide

/-! ## Theorems: boundary behaviour of the difficulty check -/

/-- The Frontier branch below block 200000, where the shifted term is zero. -/
theorem block_diff_frontier_of_lt (bi parent : BlockHeader) (n : Network)
    (p : ChainOperationParams)
    (hera : bi.number ≤ p.frontierCompatibilityModeLimit)
    (hnum : bi.number < 200000)
    (hd : (eraParams n p).difficultyBoundDivisor ≠ 0) :
    block_diff bi parent n p =
      some (max ((eraParams n p).minimumDifficulty : Int)
        ((parent.difficulty : Int) +
          ((parent.difficulty / (eraParams n p).difficultyBoundDivisor : Nat) : Int) *
            frontierMultiplier bi parent (eraParams n p).durationLimit)) := by
  unfold block_diff frontierBlockDiff
  rw [if_neg (by omega), if_neg hd, expTerm_of_lt _ hnum]
  simp only [Nat.cast_zero, add_zero]

/-- The Homestead branch below block 200000, where the shifted term is zero. -/
theorem block_diff_homestead_of_lt (bi parent : BlockHeader) (n : Network)
    (p : ChainOperationParams)
    (hera : p.frontierCompatibilityModeLimit < bi.number)
    (hnum : bi.number < 200000) :
    block_diff bi parent n p =
      some (max (p.minimumDifficulty : Int)
        ((parent.difficulty : Int) + ((parent.difficulty / 2048 : Nat) : Int) *
          homesteadMultiplier bi parent)) := by
  unfold block_diff homesteadBlockDiff
  rw [if_pos hera, expTerm_of_lt _ hnum]
  simp only [Nat.cast_zero, add_zero]

/-- C11: in the pre-Homestead era, below block 200000 and with the parameters the network
selects, a candidate whose timestamp exceeds its parent's by exactly `durationLimit` gets
`max(minimumDifficulty, P.difficulty - a)` with `a = P.difficulty /
difficultyBoundDivisor`, whereas a delta of `durationLimit - 1` gives
`max(minimumDifficulty, P.difficulty + a)`. -/
theorem C11_frontier_duration_boundary (bi parent : BlockHeader) (n : Network)
    (p : ChainOperationParams)
    (hera : bi.number ≤ p.frontierCompatibilityModeLimit)
    (hnum : bi.number < 200000)
    (hd : (eraParams n p).difficultyBoundDivisor ≠ 0) :
    (bi.timestamp = parent.timestamp + (eraParams n p).durationLimit →
      block_diff bi parent n p =
        some (max ((eraParams n p).minimumDifficulty : Int)
          ((parent.difficulty : Int) -
            ((parent.difficulty / (eraParams n p).difficultyBoundDivisor : Nat) : Int)))) ∧
    (parent.timestamp ≤ bi.timestamp →
      bi.timestamp + 1 = parent.timestamp + (eraParams n p).durationLimit →
      block_diff bi parent n p =
        some (max ((eraParams n p).minimumDifficulty : Int)
          ((parent.difficulty : Int) +
            ((parent.difficulty / (eraParams n p).difficultyBoundDivisor : Nat) : Int)))) := by
  constructor
  · intro hts
    have hle : parent.timestamp ≤ bi.timestamp := by omega
    rw [block_diff_frontier_of_lt bi parent n p hera hnum hd,
      frontierMultiplier_of_le bi parent _ hle, if_neg (by omega)]
    simp only [mul_neg, mul_one, sub_eq_add_neg]
  · intro hle hts
    rw [block_diff_frontier_of_lt bi parent n p hera hnum hd,
      frontierMultiplier_of_le bi parent _ hle, if_pos (by omega)]
    simp only [mul_one]

/-- C11 on the Frontier network: parent difficulty `0x100000`, a delta of 13 seconds gives
`0x100000 - 512` and a delta of 12 seconds `0x100000 + 512`. -/
theorem C11_witness :
    (101 ≤ 1150000 ∧ 101 < 200000 ∧ 2048 ≠ 0) ∧
    block_diff ⟨0, 101, 1013⟩ ⟨0x100000, 100, 1000⟩ .Frontier scenarioParams
      = some (0x100000 - 512) ∧
    block_diff ⟨0, 101, 1012⟩ ⟨0x100000, 100, 1000⟩ .Frontier scenarioParams
      = some (0x100000 + 512) := by
  refine ⟨by decide, ?_, ?_⟩
  · rw [(C11_frontier_duration_boundary ⟨0, 101, 1013⟩ ⟨0x100000, 100, 1000⟩ .Frontier
      scenarioParams (by decide) (by decide) (by decide)).1 (by decide)]
    decide
  · rw [(C11_frontier_duration_boundary ⟨0, 101, 1012⟩ ⟨0x100000, 100, 1000⟩ .Frontier
      scenarioParams (by decide) (by decide) (by decide)).2 (by decide) (by decide)]
    decide

/-- C12: for every candidate header with number below 200000 (so that
`c = number / 100000 - 2` is negative), in either era and for any timestamps, the shifted
term contributes nothing: the difficulty the formula yields is
`max(minimumDifficulty, P.difficulty + a * b)`, where `a` and `b` are the values the
branch computes: `a = P.difficulty / 2048` and `b` the multiplier of lines 57 and 60 in
the Homestead era, `a = P.difficulty / difficultyBoundDivisor` and `b` the multiplier of
line 99 in the pre-Homestead era (for a non-zero divisor). For a candidate less than 20
seconds younger than its parent the Homestead `b` is `max(1 - delta / 10, -99)`, and for a
candidate not older than its parent the pre-Homestead `b` is `+1` for
`delta < durationLimit` and `-1` otherwise. -/
theorem C12_exponential_term_omitted (bi parent : BlockHeader) (n : Network)
    (p : ChainOperationParams) (hnum : bi.number < 200000) :
    expTerm bi.number = 0 ∧
    (p.frontierCompatibilityModeLimit < bi.number →
      block_diff bi parent n p =
        some (max (p.minimumDifficulty : Int)
          ((parent.difficulty : Int) + ((parent.difficulty / 2048 : Nat) : Int) *
            homesteadMultiplier bi parent))) ∧
    (bi.number ≤ p.frontierCompatibilityModeLimit →
      (eraParams n p).difficultyBoundDivisor ≠ 0 →
      block_diff bi parent n p =
        some (max ((eraParams n p).minimumDifficulty : Int)
          ((parent.difficulty : Int) +
            ((parent.difficulty / (eraParams n p).difficultyBoundDivisor : Nat) : Int) *
              frontierMultiplier bi parent (eraParams n p).durationLimit))) ∧
    (p.frontierCompatibilityModeLimit < bi.number →
      parent.timestamp ≤ bi.timestamp → bi.timestamp < parent.timestamp + 20 →
      block_diff bi parent n p =
        some (max (p.minimumDifficulty : Int)
          ((parent.difficulty : Int) + ((parent.difficulty / 2048 : Nat) : Int) *
            max (1 - Int.tdiv ((bi.timestamp : Int) - (parent.timestamp : Int)) 10)
              (-99)))) ∧
    (bi.number ≤ p.frontierCompatibilityModeLimit →
      (eraParams n p).difficultyBoundDivisor ≠ 0 →
      parent.timestamp ≤ bi.timestamp →
      block_diff bi parent n p =
        some (max ((eraParams n p).minimumDifficulty : Int)
          ((parent.difficulty : Int) +
            ((parent.difficulty / (eraParams n p).difficultyBoundDivisor : Nat) : Int) *
              (if (bi.timestamp : Int) - (parent.timestamp : Int)
                  < ((eraParams n p).durationLimit : Int) then 1 else -1)))) := by
  refine ⟨expTerm_of_lt _ hnum,
    fun hera => block_diff_homestead_of_lt bi parent n p hera hnum,
    fun hera hd => block_diff_frontier_of_lt bi parent n p hera hnum hd, ?_, ?_⟩
  · intro hera h0 hlt
    rw [block_diff_homestead_of_lt bi parent n p hera hnum,
      homesteadMultiplier_of_lt bi parent h0 hlt]
  · intro hera hd h0
    rw [block_diff_frontier_of_lt bi parent n p hera hnum hd,
      frontierMultiplier_of_le bi parent _ h0]

/-- C12 at block 150000 in both eras: parent difficulty `0x100000` and a delta of 5
seconds give `0x100000 + 512`, with nothing added for the exponent `-1`. -/
theorem C12_witness :
    (150000 < 200000) ∧
    block_diff ⟨0, 150000, 1005⟩ ⟨0x100000, 149999, 1000⟩ .HomesteadTest homesteadParams
      = some (0x100000 + 512) ∧
    block_diff ⟨0, 150000, 1005⟩ ⟨0x100000, 149999, 1000⟩ .Frontier scenarioParams
      = some (0x100000 + 512) := by
  have h := C12_exponential_term_omitted ⟨0, 150000, 1005⟩ ⟨0x100000, 149999, 1000⟩
    .HomesteadTest homesteadParams (by decide)
  have h' := C12_exponential_term_omitted ⟨0, 150000, 1005⟩ ⟨0x100000, 149999, 1000⟩
    .Frontier scenarioParams (by decide)
  refine ⟨by decide, ?_, ?_⟩
  · rw [h.2.1 (by decide)]; decide
  · rw [h'.2.2.1 (by decide) (by decide)]; decide

/-- The multiplier of the Frontier branch does not rise with the candidate timestamp, for
candidates not older than their parent. -/
theorem frontierMultiplier_antitone (parent : BlockHeader) (bi1 bi2 : BlockHeader)
    (durationLimit : Nat) (h1 : parent.timestamp ≤ bi1.timestamp)
    (h12 : bi1.timestamp ≤ bi2.timestamp) :
    frontierMultiplier bi2 parent durationLimit ≤ frontierMultiplier bi1 parent durationLimit := by
  rw [frontierMultiplier_of_le bi1 parent _ h1,
    frontierMultiplier_of_le bi2 parent _ (le_trans h1 h12)]
  split <;> split <;> omega

/-- In the pre-Homestead era the difficulty the formula yields does not rise with the
candidate timestamp, for timestamps at or after the parent's. -/
theorem frontier_block_diff_antitone (bi parent : BlockHeader) (n : Network)
    (p : ChainOperationParams) (t1 t2 : Nat)
    (hera : bi.number ≤ p.frontierCompatibilityModeLimit)
    (h1 : parent.timestamp ≤ t1) (h12 : t1 ≤ t2) (d1 d2 : Int)
    (e1 : block_diff { bi with timestamp := t1 } parent n p = some d1)
    (e2 : block_diff { bi with timestamp := t2 } parent n p = some d2) : d2 ≤ d1 := by
  unfold block_diff at e1 e2
  simp only at e1 e2
  rw [if_neg (by omega)] at e1 e2
  unfold frontierBlockDiff at e1 e2
  by_cases hd : (eraParams n p).difficultyBoundDivisor = 0
  · rw [if_pos hd] at e1
    cases e1
  · rw [if_neg hd] at e1 e2
    simp only [Option.some.injEq] at e1 e2
    rw [← e1, ← e2]
    have hb := frontierMultiplier_antitone parent { bi with timestamp := t1 }
      { bi with timestamp := t2 } (eraParams n p).durationLimit h1 h12
    have ha : (0 : Int) ≤
        ((parent.difficulty / (eraParams n p).difficultyBoundDivisor : Nat) : Int) :=
      Int.natCast_nonneg _
    have := mul_le_mul_of_nonneg_left hb ha
    exact max_le_max (le_refl _) (by linarith)

/-- C16 in the Homestead era: the check is not non-increasing in the candidate timestamp.
With parent difficulty `0x100000` at timestamp 1000 and a candidate at block 1000000, the
timestamps `1010 ≤ 1020` give `0x100100` and then `0x100000 + 512 * (2 ^ 256 - 1) + 256`:
the multiplier `1 - 2` of the later timestamp has wrapped in `u256` arithmetic, and the
difficulty has risen. -/
theorem C16_failing_input :
    (1000 ≤ 1010 ∧ 1010 ≤ 1020) ∧
    block_diff ⟨0, 1000000, 1010⟩ ⟨0x100000, 999999, 1000⟩ .HomesteadTest homesteadParams
      = some 0x100100 ∧
    block_diff ⟨0, 1000000, 1020⟩ ⟨0x100000, 999999, 1000⟩ .HomesteadTest homesteadParams
      = some (((0x100000 + 512 * (2 ^ 256 - 1) + 256 : Nat) : Int)) ∧
    0x100100 < 0x100000 + 512 * (2 ^ 256 - 1) + 256 := by
  decide

/-! ## Theorems: extras lookups -/

/-- Writing back the cache a chain already has leaves the chain as it was. -/
theorem with_blockHashes_self (bc : BlockChain) :
    { bc with m_blockHashes := bc.m_blockHashes } = bc := by
  cases bc
  rfl

/-- A lookup that misses the cache and finds nothing stored returns the null record and
changes nothing. -/
theorem queryExtras_of_empty {K T : Type} [DecidableEq K] (N : Nat) (toKey : K → ExtrasKey)
    (note : BlockChain → K → Nat → BlockChain) (decode : Bytes → T)
    (bc : BlockChain) (_h : K) (_m : K → Option T) (_n : T)
    (hm : _m _h = none) (hs : bc.m_extrasDB (toKey _h) N = []) :
    queryExtras N toKey note decode bc _h _m _n = (_n, _m, bc) := by
  unfold queryExtras
  rw [hm]
  simp only [hs, if_true]

/-- C13: `numberHash(0)` is the genesis hash for every state of the block-hash cache and
the extras store: it reads neither (chains that agree on the genesis hash agree on the
result, whatever their caches, stores and decoders) and leaves the chain, its cache
included, as it was; for `n > 0` with no block-hash record, cached or stored,
`numberHash(n)` is the null hash. -/
theorem C13_numberHash (c : Codec) (bc : BlockChain) :
    bc.numberHash c 0 = (bc.m_genesisHash, bc) ∧
    (∀ (c' : Codec) (bc' : BlockChain), bc'.m_genesisHash = bc.m_genesisHash →
      (bc'.numberHash c' 0).1 = (bc.numberHash c 0).1) ∧
    (∀ n, 0 < n → bc.m_blockHashes n = none →
      bc.m_extrasDB (.number n) ExtraBlockHash = [] →
      bc.numberHash c n = (h256.zero, bc)) := by
  refine ⟨?_, ?_, ?_⟩
  · unfold BlockChain.numberHash
    rw [if_pos rfl]
  · intro c' bc' hg
    unfold BlockChain.numberHash
    rw [if_pos rfl, if_pos rfl]
    exact hg
  · intro n hn hm hs
    unfold BlockChain.numberHash
    rw [if_neg (by omega),
      queryExtras_of_empty ExtraBlockHash ExtrasKey.number BlockChain.noteUsedNumber
        c.blockHash bc n bc.m_blockHashes NullBlockHash hm hs]
    simp only [with_blockHashes_self]
    rfl

/-- C13 on the example chain, whose genesis hash is 0 and which stores no block hash:
`numberHash(0)` is the genesis hash and `numberHash(5)` the null hash. -/
theorem C13_witness :
    (exampleChain.numberHash exampleCodec 0).1 = h256.ofUnsigned 0 ∧
    (0 < 5 ∧ exampleChain.m_blockHashes 5 = none ∧
      exampleChain.m_extrasDB (.number 5) ExtraBlockHash = []) ∧
    (exampleChain.numberHash exampleCodec 5).1 = h256.zero := by
  have h := C13_numberHash exampleCodec exampleChain
  refine ⟨?_, by decide, ?_⟩
  · rw [h.1]; rfl
  · rw [h.2.2 5 (by decide) (by decide) (by decide)]

/-- C14: `queryExtras` for a key `_h` and a kind `N`, for every cache `_m` and every
store: a key in the cache gives the cached record and changes nothing; otherwise an empty
stored value gives the null record `_n` and leaves the cache and the chain state (the
usage record included) unchanged; otherwise the result is the record decoded from the
stored octets, the cache afterwards maps the key to that record, every other cache entry
is unchanged, and the chain state is the one `noteUsed` leaves. -/
theorem C14_queryExtras_cases {K T : Type} [DecidableEq K] (N : Nat) (toKey : K → ExtrasKey)
    (note : BlockChain → K → Nat → BlockChain) (decode : Bytes → T)
    (bc : BlockChain) (_h : K) (_m : K → Option T) (_n : T) :
    (∀ v, _m _h = some v → queryExtras N toKey note decode bc _h _m _n = (v, _m, bc)) ∧
    (_m _h = none → bc.m_extrasDB (toKey _h) N = [] →
      queryExtras N toKey note decode bc _h _m _n = (_n, _m, bc)) ∧
    (_m _h = none → bc.m_extrasDB (toKey _h) N ≠ [] →
      (queryExtras N toKey note decode bc _h _m _n).1
        = decode (bc.m_extrasDB (toKey _h) N) ∧
      (queryExtras N toKey note decode bc _h _m _n).2.1 _h
        = some (decode (bc.m_extrasDB (toKey _h) N)) ∧
      (∀ k, k ≠ _h → (queryExtras N toKey note decode bc _h _m _n).2.1 k = _m k) ∧
      (queryExtras N toKey note decode bc _h _m _n).2.2 = note bc _h N) := by
  refine ⟨?_, ?_, ?_⟩
  · intro v hv
    unfold queryExtras
    rw [hv]
  · intro hm hs
    exact queryExtras_of_empty N toKey note decode bc _h _m _n hm hs
  · intro hm hs
    unfold queryExtras
    rw [hm]
    simp only [hs, if_false, cacheInsert, hm]
    refine ⟨trivial, ?_, ?_, trivial⟩
    · simp
    · intro k hk
      simp [hk]

/-- C14 on the example chain: transaction 3 is served from the example cache, transaction 5
has no record and gives the null record, and transaction 99 is decoded from the store and
enters the cache, which still holds transaction 3. -/
theorem C14_witness :
    (queryExtras ExtraTransactionAddress ExtrasKey.hash BlockChain.noteUsed
        exampleCodec.transactionAddress exampleChain (h256.ofUnsigned 3) exampleCache
        NullTransactionAddress).1 = ⟨h256.ofUnsigned 7, 2⟩ ∧
    (queryExtras ExtraTransactionAddress ExtrasKey.hash BlockChain.noteUsed
        exampleCodec.transactionAddress exampleChain (h256.ofUnsigned 5) exampleCache
        NullTransactionAddress).1 = NullTransactionAddress ∧
    (queryExtras ExtraTransactionAddress ExtrasKey.hash BlockChain.noteUsed
        exampleCodec.transactionAddress exampleChain (h256.ofUnsigned 99) exampleCache
        NullTransactionAddress).1 = ⟨h256.ofUnsigned 7, 1⟩ ∧
    (queryExtras ExtraTransactionAddress ExtrasKey.hash BlockChain.noteUsed
        exampleCodec.transactionAddress exampleChain (h256.ofUnsigned 99) exampleCache
        NullTransactionAddress).2.1 (h256.ofUnsigned 99) = some ⟨h256.ofUnsigned 7, 1⟩ ∧
    (queryExtras ExtraTransactionAddress ExtrasKey.hash BlockChain.noteUsed
        exampleCodec.transactionAddress exampleChain (h256.ofUnsigned 99) exampleCache
        NullTransactionAddress).2.1 (h256.ofUnsigned 3) = some ⟨h256.ofUnsigned 7, 2⟩ := by
  have hit := (C14_queryExtras_cases ExtraTransactionAddress ExtrasKey.hash
    BlockChain.noteUsed exampleCodec.transactionAddress exampleChain (h256.ofUnsigned 3)
    exampleCache NullTransactionAddress).1 ⟨h256.ofUnsigned 7, 2⟩ (by decide)
  have empty := (C14_queryExtras_cases ExtraTransactionAddress ExtrasKey.hash
    BlockChain.noteUsed exampleCodec.transactionAddress exampleChain (h256.ofUnsigned 5)
    exampleCache NullTransactionAddress).2.1 (by decide) (by decide)
  have stored := (C14_queryExtras_cases ExtraTransactionAddress ExtrasKey.hash
    BlockChain.noteUsed exampleCodec.transactionAddress exampleChain (h256.ofUnsigned 99)
    exampleCache NullTransactionAddress).2.2 (by decide) (by decide)
  refine ⟨?_, ?_, ?_, ?_, ?_⟩
  · rw [hit]
  · rw [empty]
  · rw [stored.1]; decide
  · rw [stored.2.1]; decide
  · rw [stored.2.2.1 (h256.ofUnsigned 3) (by decide)]; decide

/-- C15: for a transaction hash `t` with no `TransactionAddress` record, neither cached
nor in the extras store, the lookups report not-found: `transactionLocation(t)` is
`(zero hash, 0)`, `transaction(t)` is the empty octet string and `isKnownTransaction(t)`
is false; each of them leaves the chain as it was. -/
theorem C15_unknown_transaction (c : Codec) (bc : BlockChain) (t : h256)
    (hrec : bc.transactionAddressRecord c t = none) :
    bc.transactionLocation c t = ((h256.zero, 0), bc) ∧
    bc.transaction c t = ([], bc) ∧
    bc.isKnownTransaction c t = (false, bc) := by
  have hq : bc.queryTransactionAddress c t = (NullTransactionAddress, bc) := by
    unfold BlockChain.transactionAddressRecord at hrec
    cases hm : bc.m_transactionAddresses t with
    | some v => rw [hm] at hrec; cases hrec
    | none =>
      rw [hm] at hrec
      simp only at hrec
      by_cases hs : bc.m_extrasDB (.hash t) ExtraTransactionAddress = []
      · unfold BlockChain.queryTransactionAddress
        rw [queryExtras_of_empty ExtraTransactionAddress ExtrasKey.hash BlockChain.noteUsed
          c.transactionAddress bc t bc.m_transactionAddresses NullTransactionAddress hm hs]
      · rw [if_neg hs] at hrec
        cases hrec
  have hb : NullTransactionAddress.toBool = false := by decide
  refine ⟨?_, ?_, ?_⟩
  · unfold BlockChain.transactionLocation
    simp only [hq, hb, Bool.not_false, if_true]
  · unfold BlockChain.transaction
    simp only [hq, hb, Bool.not_false, if_true]
  · unfold BlockChain.isKnownTransaction
    simp only [hq, hb]

/-- C15 on the example chain: transaction 5 has no record; its location is
`(zero hash, 0)`, its octets are empty, and it is not known. -/
theorem C15_witness :
    exampleChain.transactionAddressRecord exampleCodec (h256.ofUnsigned 5) = none ∧
    (exampleChain.transactionLocation exampleCodec (h256.ofUnsigned 5)).1 = (h256.zero, 0) ∧
    (exampleChain.transaction exampleCodec (h256.ofUnsigned 5)).1 = [] ∧
    (exampleChain.isKnownTransaction exampleCodec (h256.ofUnsigned 5)).1 = false := by
  have h := C15_unknown_transaction exampleCodec exampleChain (h256.ofUnsigned 5) (by decide)
  refine ⟨by decide, ?_, ?_, ?_⟩
  · rw [h.1]
  · rw [h.2.1]
  · rw [h.2.2]

/-! ## Theorems: uniqueness of bloom chunk identifiers -/

theorem chunkId_toNat (level index : Nat) :
    (chunkId level index).toNat = (index * 255 + level) % 2 ^ 32 := by
  unfold chunkId
  rw [h256_ofUnsigned_toNat _ (Nat.mod_lt _ (by positivity))]
  omega

/-- C17: `chunkId` identifies bloom chunks uniquely on the range in use: for levels below
255 and `index * 255 + level` below `2 ^ 32`, equal identifiers have equal levels and equal
indices; without the bound on the level they need not, as
`chunkId(255, 0) = chunkId(0, 1)`. -/
theorem C17_chunkId_injective :
    (∀ level1 index1 level2 index2 : Nat, level1 < 255 → level2 < 255 →
      index1 * 255 + level1 < 2 ^ 32 → index2 * 255 + level2 < 2 ^ 32 →
      chunkId level1 index1 = chunkId level2 index2 →
      level1 = level2 ∧ index1 = index2) ∧
    chunkId 255 0 = chunkId 0 1 := by
  constructor
  · intro l1 i1 l2 i2 hl1 hl2 h1 h2 heq
    have hv : (chunkId l1 i1).toNat = (chunkId l2 i2).toNat := by rw [heq]
    rw [chunkId_toNat, chunkId_toNat, Nat.mod_eq_of_lt h1, Nat.mod_eq_of_lt h2] at hv
    constructor <;> omega
  · decide

/-- C17 at two neighbouring chunks: level 254 of index 0 and level 0 of index 1 have
different identifiers, while level 255 of index 0 collides with level 0 of index 1. -/
theorem C17_witness :
    (254 < 255 ∧ 0 < 255 ∧ 0 * 255 + 254 < 2 ^ 32 ∧ 1 * 255 + 0 < 2 ^ 32) ∧
    chunkId 254 0 ≠ chunkId 0 1 ∧ chunkId 255 0 = chunkId 0 1 :=
  ⟨by decide,
    fun h => absurd (C17_chunkId_injective.1 254 0 0 1 (by decide) (by decide) (by decide)
      (by decide) h).1 (by decide),
    C17_chunkId_injective.2⟩

end Aleth
